import Mathlib

set_option autoImplicit false

/-!
Shallow embedding of the matching-engine repository
(src/matching_service.py, src/cache_client.py, src/job_queue.py).

Numbers are modelled as rationals (the Python code computes with
arbitrary-precision ints and floats; the claims are about exact
arithmetic relations, modelled over the rationals).  Python dict
accesses via subscript are modelled as plain structure fields, and
accesses via .get with a default are modelled as Option fields read
with getD, except where an absent key is observationally identical to
the default value, in which case a plain field is used.  Fallible
Python code is modelled with Except over an error type mirroring the
exception classes that matter to the control flow.
-/

/-- Python exception classes relevant to the control flow of
matching_service.py: KeyError (raised by a missing dict subscript, not
caught by the try blocks in compute_time_score), ValueError (raised by
datetime.fromisoformat on unparseable input, caught), and
ZeroDivisionError (raised by division by zero, not caught inside the
scoring functions). -/
inductive PyErr where
  | keyError
  | valueError
  | zeroDivisionError
deriving Repr, DecidableEq

/-- A timestamp field of a window record: the key may be missing from
the dict (subscripting raises KeyError), present but unparseable
(datetime.fromisoformat raises ValueError), or parseable, in which
case it is modelled by its value in seconds (datetime subtraction and
comparison act on these values). -/
inductive TsVal where
  | missing
  | malformed
  | valid (seconds : ℚ)
deriving Repr, DecidableEq

/-- Looking up and parsing one timestamp field: a missing key raises
KeyError, an unparseable value raises ValueError. -/
def parseTs : TsVal → Except PyErr ℚ
  | .missing => .error .keyError
  | .malformed => .error .valueError
  | .valid s => .ok s

/-- One job time window record with keys start and end (the Python key
end is a Lean keyword, hence the underscore). -/
structure JobWindow where
  start : TsVal
  end_ : TsVal
deriving Repr, DecidableEq

/-- One candidate availability window record with keys start_ts and end_ts. -/
structure AvailabilityWindow where
  start_ts : TsVal
  end_ts : TsVal
deriving Repr, DecidableEq

/-- The schedule_requirements sub-dict of a job: the windows key may be
absent, and the type key (read with .get) may be absent. -/
structure ScheduleRequirements where
  windows : Option (List JobWindow)
  type_ : Option String
deriving Repr, DecidableEq

/-- A lat/lon point.  none at a use site models a dict that is missing
the point or one of its lat/lon keys. -/
structure LocationPoint where
  lat : ℚ
  lon : ℚ
deriving Repr, DecidableEq

/-- One entry of a candidate domains list: the domain key is
subscripted directly, years and seniority are read with .get. -/
structure DomainEntry where
  domain : String
  years : Option ℚ
  seniority : Option String
deriving Repr, DecidableEq

/-- One entry of a candidate certs list (cert_code is subscripted directly). -/
structure CertEntry where
  cert_code : String
deriving Repr, DecidableEq

/-- One job experience requirement; all three keys are read with .get
(defaults: domain none, min_years 0, importance 50). -/
structure ExperienceRequirement where
  domain : Option String
  min_years : Option ℚ
  importance : Option ℚ
deriving Repr, DecidableEq

/-- Candidate profile dict.  availability defaults to [], remote_ok is
used only for truthiness (Bool), location_points entries may each be
malformed (missing point/lat/lon keys, modelled none and skipped by
the place loop), timezone_offset defaults to 0. -/
structure CandidateProfile where
  availability : List AvailabilityWindow
  remote_ok : Bool
  location_points : List (Option LocationPoint)
  hourly_rate : Option ℚ
  domains : List DomainEntry
  certs : List CertEntry
  timezone_offset : ℚ
deriving Repr, DecidableEq

/-- Job posting dict.  location_policy is read with default value
remote; location_point none models a missing point or missing lat/lon
key; location_radius_km defaults to 50; price_policy min/max model
job.get(price_policy, empty).get(min) and .get(max);
experience_requirements and mandatory_flags default to []. -/
structure JobPosting where
  schedule_requirements : Option ScheduleRequirements
  timezone_offset : ℚ
  location_policy : Option String
  location_point : Option LocationPoint
  location_radius_km : Option ℚ
  price_policy_min : Option ℚ
  price_policy_max : Option ℚ
  experience_requirements : List ExperienceRequirement
  mandatory_flags : List String
deriving Repr, DecidableEq

/-- The dict literal returned by every scoring function. -/
structure ScoreBreakdown where
  score : ℚ
  reason : String
deriving Repr, DecidableEq

/-- Embedding of the module-level helper _clamp at its only used
bounds (lower 0.0, upper 1.0): max(lower, min(n, upper)). -/
def _clamp (n : ℚ) : ℚ := max 0 (min n 1)

namespace MatchingService

/-- The generator sum computing total_required_seconds: per window the
end field is looked up and parsed first, then the start field
(left-to-right evaluation of the subtraction operands). -/
def requiredSeconds : List JobWindow → Except PyErr ℚ
  | [] => .ok 0
  | w :: ws => do
    let e ← parseTs w.end_
    let s ← parseTs w.start
    let rest ← requiredSeconds ws
    pure ((e - s) + rest)

/-- Inner loop of the overlap computation: for one parsed job window,
iterate the freelancer windows (start_ts parsed before end_ts) and sum
positive overlaps. -/
def overlapWith (js je : ℚ) : List AvailabilityWindow → Except PyErr ℚ
  | [] => .ok 0
  | fw :: fws => do
    let fs ← parseTs fw.start_ts
    let fe ← parseTs fw.end_ts
    let rest ← overlapWith js je fws
    let os := max js fs
    let oe := min je fe
    pure ((if os < oe then oe - os else 0) + rest)

/-- Outer loop of the overlap computation over the job windows (start
parsed before end, per the tuple assignment on line 109). -/
def overlapSeconds (fws : List AvailabilityWindow) : List JobWindow → Except PyErr ℚ
  | [] => .ok 0
  | jw :: jws => do
    let js ← parseTs jw.start
    let je ← parseTs jw.end_
    let inner ← overlapWith js je fws
    let rest ← overlapSeconds fws jws
    pure (inner + rest)

/-- Embedding of MatchingService.compute_time_score.  The try block
covers the required/overlap sums; ValueError (and TypeError, which the
model does not produce) is caught and degrades to 0.2, KeyError
propagates.  The f-string reason is modelled with toString in place of
the .2f format specifier. -/
def compute_time_score (candidate : CandidateProfile) (job : JobPosting) :
    Except PyErr ScoreBreakdown :=
  match job.schedule_requirements with
  | none => .ok ⟨0.8, "Job has no specific time requirements."⟩
  | some sched =>
    match sched.windows with
    | none => .ok ⟨0.8, "Job has no specific time requirements."⟩
    | some job_windows =>
      let body : Except PyErr (ℚ × ℚ) := do
        let req ← requiredSeconds job_windows
        let ovl ← overlapSeconds candidate.availability job_windows
        pure (req, ovl)
      match body with
      | .error .valueError => .ok ⟨0.2, "Error parsing time data."⟩
      | .error e => .error e
      | .ok (req, ovl) =>
        let overlap_ratio := _clamp (if req > 0 then ovl / req else 0)
        let tz_diff := |candidate.timezone_offset - job.timezone_offset|
        let tz_penalty := max 0 ((tz_diff - 3) / 21)
        let score0 := overlap_ratio * (1 - tz_penalty)
        let score :=
          if sched.type_ = some "flexible" then min 1 (score0 + 0.15) else score0
        .ok ⟨_clamp score,
          "Overlap ratio: " ++ toString overlap_ratio ++ ", TZ penalty: " ++ toString tz_penalty⟩

/-- The running minimum over the candidate location points of the
great-circle distance to the job point; malformed entries are skipped
(the except KeyError/TypeError continue), and none models the initial
float(inf) when no entry parses.  The geopy geodesic distance is an
external collaborator and enters as the total function dist. -/
def minDistKm (dist : LocationPoint → LocationPoint → ℚ) (jp : LocationPoint) :
    List (Option LocationPoint) → Option ℚ
  | [] => none
  | none :: rest => minDistKm dist jp rest
  | some fp :: rest =>
    match minDistKm dist jp rest with
    | none => some (dist jp fp)
    | some m => some (min (dist jp fp) m)

/-- Embedding of MatchingService.compute_place_score.  In the hybrid
branch, min_dist_km / (radius_km * 2) raises ZeroDivisionError when
the radius is 0; when every candidate point is malformed min_dist_km
is the float infinity, so the onsite decay and the hybrid decay with
positive doubled radius evaluate to 0 after max(0, .), while the
hybrid decay with negative doubled radius evaluates to plus infinity,
which _clamp sends to 1. -/
def compute_place_score (dist : LocationPoint → LocationPoint → ℚ)
    (candidate : CandidateProfile) (job : JobPosting) : Except PyErr ScoreBreakdown :=
  let policy := job.location_policy.getD "remote"
  if policy = "remote" then
    .ok ⟨if candidate.remote_ok then 1.0 else 0.0, "Remote policy"⟩
  else
    match job.location_point with
    | none => .ok ⟨0.1, "Job is missing location point data."⟩
    | some jp =>
      if candidate.location_points.isEmpty then
        .ok ⟨0.1, "Candidate has no location data."⟩
      else
        let md := minDistKm dist jp candidate.location_points
        let radius := job.location_radius_km.getD 50
        let mdStr := match md with | none => "inf" | some d => toString d
        if policy = "onsite" then
          let score : ℚ :=
            match md with
            | none => 0
            | some d => if d > radius then max 0 (1 - (d - radius) / 200) else 1.0
          .ok ⟨_clamp score, "Onsite policy, distance " ++ mdStr ++ "km"⟩
        else if policy = "hybrid" then
          if radius * 2 = 0 then .error .zeroDivisionError
          else
            let remote_part : ℚ := if candidate.remote_ok then 0.6 else 0.0
            let reason :=
              "Hybrid policy, remote ok: " ++ toString candidate.remote_ok ++ ", dist: " ++ mdStr ++ "km"
            match md with
            | none =>
              if radius * 2 > 0 then .ok ⟨_clamp (remote_part + 0.4 * 0), reason⟩
              else .ok ⟨1, reason⟩
            | some d =>
              .ok ⟨_clamp (remote_part + 0.4 * max 0 (1 - d / (radius * 2))), reason⟩
        else
          .ok ⟨_clamp 0.0, "Unknown policy"⟩

/-- Embedding of MatchingService.compute_cost_score.  When the rate
exceeds a zero max, (rate - job_max) / job_max raises
ZeroDivisionError; when 1 + overshoot is zero (possible with a
negative max), the outer division raises it as well. -/
def compute_cost_score (candidate : CandidateProfile) (job : JobPosting) :
    Except PyErr ScoreBreakdown :=
  match candidate.hourly_rate with
  | none => .ok ⟨0.6, "Candidate rate unknown"⟩
  | some rate =>
    match job.price_policy_min, job.price_policy_max with
    | some job_min, some job_max =>
      if job_min ≤ rate ∧ rate ≤ job_max then
        .ok ⟨_clamp 1.0, "Rate is within budget"⟩
      else if rate > job_max then
        if job_max = 0 then .error .zeroDivisionError
        else if 1 + (rate - job_max) / job_max = 0 then .error .zeroDivisionError
        else
          .ok ⟨_clamp (1 / (1 + (rate - job_max) / job_max)),
            "Rate is " ++ toString (rate / job_max - 1) ++ " over budget"⟩
      else
        .ok ⟨_clamp 0.95, "Rate is below budget floor"⟩
    | _, _ => .ok ⟨0.8, "Job budget not defined"⟩

/-- Loop state of compute_experience_score. -/
structure ExpState where
  total_weighted_score : ℚ
  total_importance : ℚ
  primary_seniority : String
  has_matched_domain : Bool
deriving Repr, DecidableEq

/-- Lookup in the dict comprehension candidate_domains_map: duplicate
domains overwrite, so the lookup returns the last matching entry. -/
def lookupDomain (domains : List DomainEntry) (d : String) : Option DomainEntry :=
  domains.reverse.find? (fun e => e.domain == d)

/-- One iteration of the requirements loop in compute_experience_score.
A requirement with an absent or falsy (empty) domain is skipped before
importance is accumulated; the first matched domain fixes the primary
seniority. -/
def expStep (domains : List DomainEntry) (st : ExpState) (req : ExperienceRequirement) :
    ExpState :=
  match req.domain with
  | none => st
  | some rd =>
    if rd = "" then st
    else
      let importance := req.importance.getD 50
      let st1 := { st with total_importance := st.total_importance + importance }
      match lookupDomain domains rd with
      | none => st1
      | some entry =>
        let st2 :=
          if st1.has_matched_domain then st1
          else { st1 with primary_seniority := entry.seniority.getD "junior" }
        let req_years := req.min_years.getD 0
        let candidate_years := entry.years.getD 0
        let frac : ℚ := if req_years > 0 then candidate_years / req_years else 1
        { st2 with has_matched_domain := true,
                   total_weighted_score := st2.total_weighted_score + min 1 frac * importance }

/-- The fixed seniority map, read with .get default 0. -/
def seniority_map (s : String) : ℚ :=
  if s = "junior" then 0.4
  else if s = "mid" then 0.7
  else if s = "senior" then 1.0
  else if s = "lead" then 1.0
  else 0

/-- The list comprehension extracting cert codes from mandatory flags
with the cert: prefix (split on colon, index 1). -/
def mandatory_certs (flags : List String) : List String :=
  (flags.filter (fun f => f.startsWith "cert:")).map (fun f => (f.splitOn ":").getD 1 "")

/-- Embedding of MatchingService.compute_experience_score (total: the
typed model has no missing dict keys on the subscripted fields). -/
def compute_experience_score (candidate : CandidateProfile) (job : JobPosting)
    (skill_overlap : ℚ) : ScoreBreakdown :=
  if job.experience_requirements.isEmpty then
    ⟨0.8, "Job has no specific experience requirements"⟩
  else
    let st := job.experience_requirements.foldl (expStep candidate.domains) ⟨0, 0, "junior", false⟩
    let domain_years_norm :=
      if st.total_importance > 0 then st.total_weighted_score / st.total_importance else 0
    let seniority_score := seniority_map st.primary_seniority
    let mcs := mandatory_certs job.mandatory_flags
    let cert_codes := candidate.certs.map (fun c => c.cert_code)
    let certs_bonus : ℚ :=
      if ¬ mcs.isEmpty ∧ mcs.all (fun mc => cert_codes.contains mc) then 0.15 else 0
    let score := 0.55 * skill_overlap + 0.25 * domain_years_norm + 0.15 * seniority_score + certs_bonus
    ⟨_clamp score,
      "Skill overlap: " ++ toString skill_overlap ++ ", Domain score: " ++
        toString domain_years_norm ++ ", Seniority: " ++ toString seniority_score⟩

/-- The caller-supplied weight dict, whose keys are exactly the four
factor names (sum(weights.values()) ranges over these four). -/
structure WeightVector where
  time : ℚ
  place : ℚ
  cost : ℚ
  experience : ℚ
deriving Repr, DecidableEq

/-- sum(weights.values()). -/
def WeightVector.total (w : WeightVector) : ℚ := w.time + w.place + w.cost + w.experience

/-- Embedding of MatchingService._aggregate_scores. -/
def _aggregate_scores (weights : WeightVector)
    (time place cost experience : ScoreBreakdown) : ℚ :=
  if weights.total = 0 then 0
  else
    (weights.time * time.score + weights.place * place.score + weights.cost * cost.score +
        weights.experience * experience.score) / weights.total

end MatchingService

/-- The breakdown dict of a match result (one ScoreBreakdown per factor). -/
structure FourBreakdown where
  time : ScoreBreakdown
  place : ScoreBreakdown
  cost : ScoreBreakdown
  experience : ScoreBreakdown
deriving Repr, DecidableEq

/-- One entry appended to reranked_results. -/
structure MatchResult where
  user_id : String
  final_score : ℚ
  breakdown : FourBreakdown
deriving Repr, DecidableEq

/-- The comparator realised by sorted(key final_score, reverse True): a
stable descending sort places a before b when the key of b is at most
the key of a. -/
def scoreDescBool (a b : MatchResult) : Bool := decide (b.final_score ≤ a.final_score)

/-- Embedding of sorted(reranked_results, key final_score, reverse True)
followed by the slice [:top_n]; Python sorted is a stable mergesort
with this comparator. -/
def rankResults (results : List MatchResult) (top_n : ℕ) : List MatchResult :=
  (results.mergeSort scoreDescBool).take top_n

/-- One row returned by the initial candidate query; experience_score
is read with .get default 0. -/
structure InitialCandidate where
  user_id : String
  experience_score : ℚ
deriving Repr, DecidableEq

/-- Effects performed against the external collaborators (db calls to
the candidate source including save_matches, cache reads, and
completed cache writes). -/
inductive Effect where
  | dbCall (method : String)
  | cacheRead (key : String)
  | cacheWrite (key : String)
deriving Repr, DecidableEq

/-- Whether an effect is a call to the candidate source (the db object). -/
def Effect.isDbCall : Effect → Bool
  | .dbCall _ => true
  | _ => false

/-- Whether an effect is a completed cache write. -/
def Effect.isCacheWrite : Effect → Bool
  | .cacheWrite _ => true
  | _ => false

/-- The responses of the external collaborators for one job run: each
db operation either returns a value or raises, the backend cache set
either stores or raises, and dist is the geopy geodesic distance. -/
structure DbEnv where
  initial_candidates : Except PyErr (List InitialCandidate)
  find_job_by_id : Except PyErr (Option JobPosting)
  get_user_full_profiles_batch : Except PyErr (List (String × CandidateProfile))
  get_match_weights : Except PyErr MatchingService.WeightVector
  save_matches : Except PyErr Unit
  cache_set_raises : Option PyErr
  dist : LocationPoint → LocationPoint → ℚ

/-- The service-level view of the cache: an association list from key
to the stored ranked list, newest binding first (dict overwrite is
modelled by shadowing).  The JSON string encoding performed inside
CacheClient is modelled separately and is value-faithful (see the
round-trip development below). -/
abbrev MCache := List (String × List MatchResult)

/-- Dict lookup in the cache store. -/
def mcacheGet (cache : MCache) (key : String) : Option (List MatchResult) :=
  (cache.find? (fun p => p.1 == key)).map Prod.snd

/-- Dict assignment in the cache store (unconditional overwrite). -/
def mcacheSet (cache : MCache) (key : String) (value : List MatchResult) : MCache :=
  (key, value) :: cache

namespace MatchingService

/-- Embedding of MatchingService._get_cache_key. -/
def _get_cache_key (job_id : String) : String := "matches:" ++ job_id

/-- Scoring of one candidate inside the loop of
_execute_match_job_logic: the four factor scores in source order, then
the aggregate; an exception from any factor propagates. -/
def scoreCandidate (dist : LocationPoint → LocationPoint → ℚ) (weights : WeightVector)
    (job : JobPosting) (profile : CandidateProfile) (c : InitialCandidate) :
    Except PyErr MatchResult := do
  let t ← compute_time_score profile job
  let p ← compute_place_score dist profile job
  let co ← compute_cost_score profile job
  let e := compute_experience_score profile job c.experience_score
  pure ⟨c.user_id, _aggregate_scores weights t p co e, ⟨t, p, co, e⟩⟩

/-- The candidate loop of _execute_match_job_logic: candidates without
a resolvable profile are skipped (continue), scored ones are appended
in input order. -/
def scoreAll (dist : LocationPoint → LocationPoint → ℚ)
    (profiles : List (String × CandidateProfile)) (weights : WeightVector)
    (job : JobPosting) : List InitialCandidate → Except PyErr (List MatchResult)
  | [] => .ok []
  | c :: cs =>
    match (profiles.find? (fun p => p.1 == c.user_id)).map Prod.snd with
    | none => scoreAll dist profiles weights job cs
    | some profile => do
      let r ← scoreCandidate dist weights job profile c
      let rest ← scoreAll dist profiles weights job cs
      pure (r :: rest)

/-- The outcome of one background run: the cache after the run, the
trace of collaborator effects, and the exception caught by the
enclosing try block (none when no exception was raised).  The run
itself always returns normally. -/
structure RunResult where
  cache : MCache
  trace : List Effect
  caught : Option PyErr
deriving Repr

/-- Embedding of MatchingService._execute_match_job_logic: fetch
initial candidates, short-circuit on empty, fetch job (short-circuit
on absent), profiles, weights, score every candidate, rank and
truncate to the default top_n of 50, persist, then write through to
the cache.  Any exception along the way is caught by the wrapping try
block, leaving the cache untouched. -/
def _execute_match_job_logic (env : DbEnv) (cache : MCache) (job_id : String) : RunResult :=
  let t1 := [Effect.dbCall "execute_sql_file"]
  match env.initial_candidates with
  | .error e => ⟨cache, t1, some e⟩
  | .ok ics =>
    if ics.isEmpty then ⟨cache, t1, none⟩
    else
      let t2 := t1 ++ [Effect.dbCall "find_job_by_id"]
      match env.find_job_by_id with
      | .error e => ⟨cache, t2, some e⟩
      | .ok none => ⟨cache, t2, none⟩
      | .ok (some job) =>
        let t3 := t2 ++ [Effect.dbCall "get_user_full_profiles_batch"]
        match env.get_user_full_profiles_batch with
        | .error e => ⟨cache, t3, some e⟩
        | .ok profiles =>
          let t4 := t3 ++ [Effect.dbCall "get_match_weights"]
          match env.get_match_weights with
          | .error e => ⟨cache, t4, some e⟩
          | .ok weights =>
            match scoreAll env.dist profiles weights job ics with
            | .error e => ⟨cache, t4, some e⟩
            | .ok results =>
              let top := rankResults results 50
              let t5 := t4 ++ [Effect.dbCall "save_matches"]
              match env.save_matches with
              | .error e => ⟨cache, t5, some e⟩
              | .ok _ =>
                let key := _get_cache_key job_id
                match env.cache_set_raises with
                | some e => ⟨cache, t5, some e⟩
                | none => ⟨mcacheSet cache key top, t5 ++ [Effect.cacheWrite key], none⟩

/-- Embedding of MatchingService.get_match_results: a single cache
read on the derived key; the body performs no db call and never
triggers computation. -/
def get_match_results (cache : MCache) (job_id : String) :
    Option (List MatchResult) × List Effect :=
  (mcacheGet cache (_get_cache_key job_id), [Effect.cacheRead (_get_cache_key job_id)])

end MatchingService

namespace JobQueue

/-- Embedding of JobQueue._worker draining a queue snapshot: each
dequeued job id is run through the (already exception-catching)
pipeline; the loop proceeds to the next job regardless of the outcome
and counts the processed jobs.  envOf gives the collaborator responses
seen by each run. -/
def _worker (envOf : String → DbEnv) (cache : MCache) :
    List String → MCache × ℕ
  | [] => (cache, 0)
  | jid :: rest =>
    let r := MatchingService._execute_match_job_logic (envOf jid) cache jid
    let (c, n) := _worker envOf r.cache rest
    (c, n + 1)

end JobQueue

/-!
Model of the JSON string encoding used inside cache_client.py.  The
value class is the one named by the round-trip claim: finite
compositions of null, booleans, numbers, strings, lists, and
string-keyed maps.  Numbers carry Python's int/float distinction: ints
are exact, finite floats are idealised as arbitrary-precision decimal
values (repr of a finite float prints a decimal string that parses
back to the same float; the model prints that decimal exactly,
collapsing scientific notation to its plain-decimal value), and the
non-finite floats nan and +-inf are kept, since json.dumps emits
NaN / Infinity / -Infinity for them by default (allow_nan=True) and
json.loads accepts those spellings.  The printer models json.dumps
(separators idealised to bare comma and colon, string escaping
restricted to the two characters that the model printer must escape
for the encoding to be injective) and the parser models json.loads on
the image of the printer.  pyEq models Python's == on decoded values,
under which nan is unequal to everything, itself included. -/

/-- Python JSON number values as handled by json.dumps/json.loads: exact
arbitrary-precision integers; finite floats idealised as decimal values
m / 10^(e+1) (repr of a finite float prints a round-tripping decimal;
the model prints e+1 fractional digits, scientific notation collapsed
to its plain-decimal value); and the non-finite floats nan and +-inf,
which dumps renders NaN / Infinity / -Infinity (allow_nan defaults to
True) and loads parses back. -/
inductive JNum where
  | int (n : ℤ)
  | dec (m : ℤ) (e : ℕ)
  | nan
  | inf (neg : Bool)
deriving Repr, DecidableEq

/-- JSON-serializable values. -/
inductive JVal where
  | null
  | bool (b : Bool)
  | num (n : JNum)
  | str (s : String)
  | arr (elems : List JVal)
  | obj (fields : List (String × JVal))
deriving Repr

mutual

/-- Structural size of a JSON value, used as parser fuel. -/
def sizeJ : JVal → ℕ
  | .null => 1
  | .bool _ => 1
  | .num _ => 1
  | .str _ => 1
  | .arr l => sizeL l + 1
  | .obj fs => sizeF fs + 1

/-- Structural size of a list of JSON values. -/
def sizeL : List JVal → ℕ
  | [] => 1
  | v :: vs => sizeJ v + sizeL vs

/-- Structural size of a list of JSON object fields. -/
def sizeF : List (String × JVal) → ℕ
  | [] => 1
  | f :: fs => sizeJ f.2 + sizeF fs

end

/-- Decimal digits of a natural number, most significant first. -/
def ppNat (n : ℕ) : List Char :=
  if n = 0 then ['0'] else (Nat.digits 10 n).reverse.map (fun d => Char.ofNat (48 + d))

/-- Decimal rendering of an integer. -/
def ppInt (n : ℤ) : List Char :=
  if n < 0 then '-' :: ppNat n.natAbs else ppNat n.toNat

/-- Left-pads a digit string with zeros to width k. -/
def padZeros (k : ℕ) (l : List Char) : List Char :=
  List.replicate (k - l.length) '0' ++ l

/-- Decimal rendering of the non-negative float value a / 10^(e+1):
integer part, point, exactly e+1 fractional digits. -/
def ppFrac (a e : ℕ) : List Char :=
  ppNat (a / 10 ^ (e + 1)) ++ '.' :: padZeros (e + 1) (ppNat (a % 10 ^ (e + 1)))

/-- Rendering of one JSON number the way json.dumps renders int and
float values (floats in the plain-decimal idealisation; NaN, Infinity
and -Infinity per allow_nan=True). -/
def ppNum : JNum → List Char
  | .int n => ppInt n
  | .dec m e => if m < 0 then '-' :: ppFrac m.natAbs e else ppFrac m.toNat e
  | .nan => ['N', 'a', 'N']
  | .inf b =>
    if b then '-' :: ['I', 'n', 'f', 'i', 'n', 'i', 't', 'y']
    else ['I', 'n', 'f', 'i', 'n', 'i', 't', 'y']

/-- Body of a JSON string literal, including the closing quote: the
quote and backslash characters are escaped with a backslash. -/
def ppStrBody : List Char → List Char
  | [] => ['"']
  | c :: rest =>
    if c = '"' ∨ c = '\\' then '\\' :: c :: ppStrBody rest else c :: ppStrBody rest

mutual

/-- Rendering of one JSON value. -/
def ppVal : JVal → List Char
  | .null => ['n', 'u', 'l', 'l']
  | .bool b => if b then ['t', 'r', 'u', 'e'] else ['f', 'a', 'l', 's', 'e']
  | .num n => ppNum n
  | .str s => '"' :: ppStrBody s.data
  | .arr l => '[' :: ppItems l
  | .obj fs => '\x7b' :: ppFields fs

/-- Rendering of the items of a JSON array after the opening bracket. -/
def ppItems : List JVal → List Char
  | [] => [']']
  | [v] => ppVal v ++ [']']
  | v :: vs => ppVal v ++ ',' :: ppItems vs

/-- Rendering of the fields of a JSON object after the opening brace. -/
def ppFields : List (String × JVal) → List Char
  | [] => ['\x7d']
  | [f] => '"' :: (ppStrBody f.1.data ++ ':' :: (ppVal f.2 ++ ['\x7d']))
  | f :: fs => '"' :: (ppStrBody f.1.data ++ ':' :: (ppVal f.2 ++ ',' :: ppFields fs))

end

/-- Parsing of a JSON string literal body up to the closing quote,
undoing the two escapes of the printer. -/
def parseStrChars : List Char → Option (List Char × List Char)
  | [] => none
  | c :: rest =>
    if c = '"' then some ([], rest)
    else if c = '\\' then
      match rest with
      | [] => none
      | d :: rest2 =>
        if d = '"' ∨ d = '\\' then (parseStrChars rest2).map (fun p => (d :: p.1, p.2))
        else none
    else (parseStrChars rest).map (fun p => (c :: p.1, p.2))

/-- Longest prefix of decimal digits, as digit values most significant
first, with the remaining characters. -/
def parseDigits : List Char → List ℕ × List Char
  | [] => ([], [])
  | c :: rest =>
    if c.isDigit then
      let p := parseDigits rest
      ((c.toNat - 48) :: p.1, p.2)
    else ([], c :: rest)

/-- Value of a most-significant-first digit list. -/
def digitsToNat (ds : List ℕ) : ℕ := ds.foldl (fun acc d => 10 * acc + d) 0

/-- Parsing of an unsigned JSON number: one or more digits, optionally
followed by a decimal point and one or more fractional digits (the
integer form yields a Python int, the pointed form a float). -/
def parseUnsigned (cs : List Char) : Option (JNum × List Char) :=
  match parseDigits cs with
  | ([], _) => none
  | (ds, r) =>
    match r with
    | [] => some (.int ((digitsToNat ds : ℕ) : ℤ), [])
    | c :: r2 =>
      if c = '.' then
        match parseDigits r2 with
        | ([], _) => none
        | (fs, r3) =>
          some (.dec ((digitsToNat ds * 10 ^ fs.length + digitsToNat fs : ℕ) : ℤ)
            (fs.length - 1), r3)
      else some (.int ((digitsToNat ds : ℕ) : ℤ), c :: r2)

/-- Negation of a parsed number after a minus sign. -/
def negNum : JNum → JNum
  | .int n => .int (-n)
  | .dec m e => .dec (-m) e
  | .nan => .nan
  | .inf b => .inf (!b)

/-- Parsing of a JSON number (optional minus sign; digits with an
optional fraction; or one of the non-finite spellings NaN, Infinity,
-Infinity accepted by json.loads). -/
def parseNumber : List Char → Option (JVal × List Char)
  | [] => none
  | c :: rest =>
    if c = 'N' then
      match rest with
      | 'a' :: 'N' :: r => some (.num .nan, r)
      | _ => none
    else if c = 'I' then
      match rest with
      | 'n' :: 'f' :: 'i' :: 'n' :: 'i' :: 't' :: 'y' :: r => some (.num (.inf false), r)
      | _ => none
    else if c = '-' then
      match rest with
      | [] => none
      | d :: r2 =>
        if d = 'I' then
          match r2 with
          | 'n' :: 'f' :: 'i' :: 'n' :: 'i' :: 't' :: 'y' :: r => some (.num (.inf true), r)
          | _ => none
        else (parseUnsigned (d :: r2)).map (fun p => (.num (negNum p.1), p.2))
    else (parseUnsigned (c :: rest)).map (fun p => (.num p.1, p.2))

mutual

/-- Fuel-indexed parser for one JSON value. -/
def parseVal : ℕ → List Char → Option (JVal × List Char)
  | 0, _ => none
  | _ + 1, [] => none
  | fuel + 1, c :: rest =>
    if c = 'n' then
      match rest with
      | 'u' :: 'l' :: 'l' :: r => some (.null, r)
      | _ => none
    else if c = 't' then
      match rest with
      | 'r' :: 'u' :: 'e' :: r => some (.bool true, r)
      | _ => none
    else if c = 'f' then
      match rest with
      | 'a' :: 'l' :: 's' :: 'e' :: r => some (.bool false, r)
      | _ => none
    else if c = '"' then
      (parseStrChars rest).map (fun p => (.str (String.mk p.1), p.2))
    else if c = '[' then
      match parseItems fuel rest with
      | none => none
      | some (l, r) => some (.arr l, r)
    else if c = '\x7b' then
      match parseFields fuel rest with
      | none => none
      | some (fs, r) => some (.obj fs, r)
    else if c = '-' ∨ c = 'N' ∨ c = 'I' ∨ c.isDigit then
      parseNumber (c :: rest)
    else none

/-- Fuel-indexed parser for array items up to the closing bracket. -/
def parseItems : ℕ → List Char → Option (List JVal × List Char)
  | 0, _ => none
  | _ + 1, [] => none
  | fuel + 1, c :: rest =>
    if c = ']' then some ([], rest)
    else
      match parseVal fuel (c :: rest) with
      | none => none
      | some (v, r1) =>
        match r1 with
        | [] => none
        | d :: r2 =>
          if d = ',' then
            match parseItems fuel r2 with
            | none => none
            | some (vs, r3) => some (v :: vs, r3)
          else if d = ']' then some ([v], r2)
          else none

/-- Fuel-indexed parser for object fields up to the closing brace. -/
def parseFields : ℕ → List Char → Option (List (String × JVal) × List Char)
  | 0, _ => none
  | _ + 1, [] => none
  | fuel + 1, c :: rest =>
    if c = '\x7d' then some ([], rest)
    else if c = '"' then
      match parseStrChars rest with
      | none => none
      | some (k, r1) =>
        match r1 with
        | [] => none
        | d :: r2 =>
          if d = ':' then
            match parseVal fuel r2 with
            | none => none
            | some (v, r3) =>
              match r3 with
              | [] => none
              | e :: r4 =>
                if e = ',' then
                  match parseFields fuel r4 with
                  | none => none
                  | some (fs, r5) => some ((String.mk k, v) :: fs, r5)
                else if e = '\x7d' then some ([(String.mk k, v)], r4)
                else none
          else none
    else none

end

/-- Model of json.dumps on the claimed value class. -/
def dumps (v : JVal) : String := String.mk (ppVal v)

/-- Model of json.loads: parse one value and require the input to be
fully consumed. -/
def loads (s : String) : Option JVal :=
  match parseVal (s.data.length + 1) s.data with
  | some (v, []) => some v
  | _ => none

namespace CacheClient

/-- The in-memory dict of CacheClient, from key to the stored JSON
string, newest binding first (dict overwrite modelled by shadowing). -/
abbrev Store := List (String × String)

/-- Dict lookup self._cache.get(key). -/
def storeGet (cache : Store) (key : String) : Option String :=
  (cache.find? (fun p => p.1 == key)).map Prod.snd

/-- Embedding of CacheClient.set: stores json.dumps(value) under the
key; the ttl argument is ignored by this backend. -/
def set (cache : Store) (key : String) (value : JVal) : Store :=
  (key, dumps value) :: cache

/-- Embedding of CacheClient.get: returns None for an absent key and
also for a falsy (empty) stored string, otherwise json.loads of the
stored string; an unparseable stored string raises JSONDecodeError. -/
def get (cache : Store) (key : String) : Except String (Option JVal) :=
  match storeGet cache key with
  | none => .ok none
  | some s =>
    if s = "" then .ok none
    else
      match loads s with
      | some v => .ok (some v)
      | none => .error "JSONDecodeError"

end CacheClient

/-- Modelled from the spec sentence for the aggregator: final_score is
the weighted sum of the sub-scores divided by the total weight, and 0
when the total weight is 0.  Stated over a list of (weight, sub-score)
pairs; used only to compare the code embedding against the spec
formula. -/
def spec_final_score (pairs : List (ℚ × ℚ)) : ℚ :=
  let total := (pairs.map Prod.fst).sum
  if total = 0 then 0 else (pairs.map (fun p => p.1 * p.2)).sum / total

/-- Whether the character stream does not begin with a decimal digit
(the context condition under which a printed number is parsed back
unchanged). -/
def noDigitHead : List Char → Bool
  | [] => true
  | c :: _ => !c.isDigit
/-- Whether the character stream can follow a printed number without
extending it: it begins with neither a digit nor a decimal point. -/
def numTailOk : List Char → Bool
  | [] => true
  | c :: _ => !c.isDigit && !(c == '.')

/-- The finite rational value of a Python number (0 on the non-finite
floats, which the comparison function filters out first). -/
def finVal : JNum → ℚ
  | .int n => (n : ℚ)
  | .dec m e => (m : ℚ) / 10 ^ (e + 1)
  | .nan => 0
  | .inf _ => 0

/-- Python == on two decoded numbers: nan compares unequal to
everything including itself, the infinities compare by sign, and
finite numbers (int or float) compare by numeric value. -/
def pyEqNum : JNum → JNum → Bool
  | .int a, .int b => decide (a = b)
  | .int a, .dec m e => decide ((a : ℚ) = finVal (.dec m e))
  | .dec m e, .int b => decide (finVal (.dec m e) = (b : ℚ))
  | .dec m e, .dec m2 e2 => decide (finVal (.dec m e) = finVal (.dec m2 e2))
  | .inf a, .inf b => a == b
  | _, _ => false

mutual

/-- Python == on decoded JSON values (the decoder returns fresh
objects, so the container identity shortcut never applies): structural
equality with pyEqNum on numbers. -/
def pyEq : JVal → JVal → Bool
  | .null, .null => true
  | .bool a, .bool b => a == b
  | .num a, .num b => pyEqNum a b
  | .str a, .str b => a == b
  | .arr l1, .arr l2 => pyEqL l1 l2
  | .obj f1, .obj f2 => pyEqF f1 f2
  | _, _ => false

/-- Python == on two lists of decoded values. -/
def pyEqL : List JVal → List JVal → Bool
  | [], [] => true
  | v1 :: vs1, v2 :: vs2 => pyEq v1 v2 && pyEqL vs1 vs2
  | _, _ => false

/-- Python == on two field lists of decoded objects. -/
def pyEqF : List (String × JVal) → List (String × JVal) → Bool
  | [], [] => true
  | f1 :: fs1, f2 :: fs2 => (f1.1 == f2.1) && pyEq f1.2 f2.2 && pyEqF fs1 fs2
  | _, _ => false

end

/-- Whether a number is the nan float. -/
def numIsNan : JNum → Bool
  | .nan => true
  | _ => false

mutual

/-- Whether a JSON value contains no nan float anywhere. -/
def nanFree : JVal → Bool
  | .null => true
  | .bool _ => true
  | .num a => !numIsNan a
  | .str _ => true
  | .arr l => nanFreeL l
  | .obj fs => nanFreeF fs

/-- Whether a list of JSON values contains no nan float. -/
def nanFreeL : List JVal → Bool
  | [] => true
  | v :: vs => nanFree v && nanFreeL vs

/-- Whether a field list contains no nan float. -/
def nanFreeF : List (String × JVal) → Bool
  | [] => true
  | f :: fs => nanFree f.2 && nanFreeF fs

end

/-! Concrete fixtures used by witnesses and counterexamples. -/

/-- A candidate dict with no optional data beyond remote_ok true. -/
def emptyCand : CandidateProfile :=
  { availability := [], remote_ok := true, location_points := [], hourly_rate := none,
    domains := [], certs := [], timezone_offset := 0 }

/-- A job dict with every optional key absent. -/
def emptyJob : JobPosting :=
  { schedule_requirements := none, timezone_offset := 0, location_policy := none,
    location_point := none, location_radius_km := none, price_policy_min := none,
    price_policy_max := none, experience_requirements := [], mandatory_flags := [] }

/-- A job whose schedule_requirements carry an empty windows list. -/
def jobEmptyWindows : JobPosting :=
  { emptyJob with schedule_requirements := some ⟨some [], none⟩ }

/-- A job with one time window whose end key is missing. -/
def jobMissingEnd : JobPosting :=
  { emptyJob with schedule_requirements := some ⟨some [⟨TsVal.valid 9, TsVal.missing⟩], none⟩ }

/-- A job whose price policy has min 0 and max 0. -/
def jobMax0 : JobPosting :=
  { emptyJob with price_policy_min := some 0, price_policy_max := some 0 }

/-- A candidate with hourly rate 100. -/
def candRate100 : CandidateProfile := { emptyCand with hourly_rate := some 100 }

/-- A hybrid-policy job with a location point and radius 0. -/
def jobHybridR0 : JobPosting :=
  { emptyJob with
      location_policy := some "hybrid", location_point := some ⟨1, 1⟩,
      location_radius_km := some 0 }

/-- A candidate with a single parseable location point. -/
def candOnePoint : CandidateProfile := { emptyCand with location_points := [some ⟨0, 0⟩] }

/-- A job with an unrecognised location policy and a location point. -/
def jobWeirdPolicy : JobPosting :=
  { emptyJob with location_policy := some "weird", location_point := some ⟨1, 1⟩ }

/-- A constant stand-in for the geodesic distance collaborator. -/
def zeroDist : LocationPoint → LocationPoint → ℚ := fun _ _ => 0

/-- Collaborator responses whose first db call raises. -/
def envFails : DbEnv :=
  { initial_candidates := .error .valueError, find_job_by_id := .ok none,
    get_user_full_profiles_batch := .ok [], get_match_weights := .ok ⟨1, 1, 1, 1⟩,
    save_matches := .ok (), cache_set_raises := none, dist := zeroDist }

/-- Collaborator responses for a run that completes successfully with
one candidate. -/
def envOk : DbEnv :=
  { initial_candidates := .ok [⟨"u1", 1⟩], find_job_by_id := .ok (some emptyJob),
    get_user_full_profiles_batch := .ok [("u1", emptyCand)],
    get_match_weights := .ok ⟨1, 1, 1, 1⟩,
    save_matches := .ok (), cache_set_raises := none, dist := zeroDist }

/-- A job with one time window whose start value is unparseable and
whose end value parses. -/
def jobMalformed : JobPosting :=
  { emptyJob with
      schedule_requirements := some ⟨some [⟨TsVal.malformed, TsVal.valid 17⟩], none⟩ }

/-- A job with budget min 80 and max 120. -/
def jobBudget : JobPosting :=
  { emptyJob with price_policy_min := some 80, price_policy_max := some 120 }

/-- A cache holding an empty ranked list for job j1. -/
def cacheJ1 : MCache := [(MatchingService._get_cache_key "j1", [])]

/-- A realistic cached payload: a ranked match-result list whose
final_score is a non-integer float. -/
def payloadC8 : JVal :=
  .arr [.obj [("user_id", .str "u1"), ("final_score", .num (.dec 815 2)),
    ("rank", .num (.int 1))]]

/-!  Theorems.  -/

/-- Reduction of the Except monad bind on a success value. -/
theorem exceptOkBind {ε α β : Type} (a : α) (f : α → Except ε β) :
    (Except.ok a >>= f) = f a := rfl

/-- Reduction of the Except monad bind on an error value. -/
theorem exceptErrBind {ε α β : Type} (e : ε) (f : α → Except ε β) :
    ((Except.error e : Except ε α) >>= f) = Except.error e := rfl

/-- Reduction of pure in the Except monad. -/
theorem exceptPure {ε α : Type} (a : α) : (pure a : Except ε α) = Except.ok a := rfl

/-- The clamped value is bounded below by 0. -/
theorem _clamp_nonneg (n : ℚ) : 0 ≤ _clamp n := le_max_left 0 _

/-- The clamped value is bounded above by 1. -/
theorem _clamp_le_one (n : ℚ) : _clamp n ≤ 1 := max_le zero_le_one (min_le_right n 1)

/-- Auxiliary: every breakdown returned normally by compute_time_score
has its score in the unit interval. -/
theorem time_score_mem_unit (c : CandidateProfile) (j : JobPosting) (b : ScoreBreakdown)
    (h : MatchingService.compute_time_score c j = .ok b) : 0 ≤ b.score ∧ b.score ≤ 1 := by
  simp only [MatchingService.compute_time_score] at h
  repeat' split at h
  all_goals first
    | exact Except.noConfusion h
    | (injection h with h; subst h; norm_num [_clamp_nonneg, _clamp_le_one])

/-- Auxiliary: every breakdown returned normally by compute_place_score
has its score in the unit interval, for any distance collaborator. -/
theorem place_score_mem_unit (dist : LocationPoint → LocationPoint → ℚ)
    (c : CandidateProfile) (j : JobPosting) (b : ScoreBreakdown)
    (h : MatchingService.compute_place_score dist c j = .ok b) : 0 ≤ b.score ∧ b.score ≤ 1 := by
  simp only [MatchingService.compute_place_score] at h
  repeat' split at h
  all_goals first
    | exact Except.noConfusion h
    | (injection h with h; subst h; norm_num [_clamp_nonneg, _clamp_le_one])

/-- Auxiliary: every breakdown returned normally by compute_cost_score
has its score in the unit interval. -/
theorem cost_score_mem_unit (c : CandidateProfile) (j : JobPosting) (b : ScoreBreakdown)
    (h : MatchingService.compute_cost_score c j = .ok b) : 0 ≤ b.score ∧ b.score ≤ 1 := by
  simp only [MatchingService.compute_cost_score] at h
  repeat' split at h
  all_goals first
    | exact Except.noConfusion h
    | (injection h with h; subst h; norm_num [_clamp_nonneg, _clamp_le_one])

/-- C1: for every candidate profile and job on which the four scoring
functions return normally, each returned sub-score lies in the unit
interval, and for non-negative weights over the four factor names the
aggregated final score of four such sub-scores lies in the unit
interval as well. -/
theorem C1_scores_in_unit_interval :
    (∀ c j b, MatchingService.compute_time_score c j = .ok b →
        0 ≤ b.score ∧ b.score ≤ 1) ∧
    (∀ dist c j b, MatchingService.compute_place_score dist c j = .ok b →
        0 ≤ b.score ∧ b.score ≤ 1) ∧
    (∀ c j b, MatchingService.compute_cost_score c j = .ok b →
        0 ≤ b.score ∧ b.score ≤ 1) ∧
    (∀ c j so, 0 ≤ (MatchingService.compute_experience_score c j so).score ∧
        (MatchingService.compute_experience_score c j so).score ≤ 1) ∧
    (∀ (w : MatchingService.WeightVector) t p c e,
        0 ≤ w.time → 0 ≤ w.place → 0 ≤ w.cost → 0 ≤ w.experience →
        0 ≤ t.score → t.score ≤ 1 → 0 ≤ p.score → p.score ≤ 1 →
        0 ≤ c.score → c.score ≤ 1 → 0 ≤ e.score → e.score ≤ 1 →
        0 ≤ MatchingService._aggregate_scores w t p c e ∧
          MatchingService._aggregate_scores w t p c e ≤ 1) := by
  refine ⟨time_score_mem_unit, place_score_mem_unit, cost_score_mem_unit, ?_, ?_⟩
  · intro c j so
    unfold MatchingService.compute_experience_score
    split
    · constructor <;> norm_num
    · constructor
      · exact _clamp_nonneg _
      · exact _clamp_le_one _
  · intro w t p c e hwt hwp hwc hwe ht0 ht1 hp0 hp1 hc0 hc1 he0 he1
    unfold MatchingService._aggregate_scores
    split
    · constructor <;> norm_num
    · rename_i hne
      have htot : 0 ≤ w.total := by
        unfold MatchingService.WeightVector.total
        linarith
      have htpos : 0 < w.total := lt_of_le_of_ne htot (Ne.symm hne)
      constructor
      · apply div_nonneg _ htot
        have h1 := mul_nonneg hwt ht0
        have h2 := mul_nonneg hwp hp0
        have h3 := mul_nonneg hwc hc0
        have h4 := mul_nonneg hwe he0
        linarith
      · rw [div_le_one htpos]
        unfold MatchingService.WeightVector.total
        have h1 := mul_le_of_le_one_right hwt ht1
        have h2 := mul_le_of_le_one_right hwp hp1
        have h3 := mul_le_of_le_one_right hwc hc1
        have h4 := mul_le_of_le_one_right hwe he1
        linarith

/-- Witness for C1: the time score of the empty job is 0.8, in the
unit interval, and the aggregate of concrete in-range sub-scores under
unit weights is in the unit interval. -/
theorem C1_scores_in_unit_interval_witness :
    (MatchingService.compute_time_score emptyCand emptyJob =
        .ok ⟨0.8, "Job has no specific time requirements."⟩) ∧
    (0 ≤ (⟨0.8, "Job has no specific time requirements."⟩ : ScoreBreakdown).score ∧
        (⟨0.8, "Job has no specific time requirements."⟩ : ScoreBreakdown).score ≤ 1) ∧
    (0 ≤ MatchingService._aggregate_scores ⟨1, 1, 1, 1⟩ ⟨0.8, ""⟩ ⟨1, ""⟩ ⟨0.6, ""⟩ ⟨0.8, ""⟩ ∧
        MatchingService._aggregate_scores ⟨1, 1, 1, 1⟩ ⟨0.8, ""⟩ ⟨1, ""⟩ ⟨0.6, ""⟩ ⟨0.8, ""⟩ ≤ 1) :=
  ⟨by simp [MatchingService.compute_time_score, emptyJob],
   C1_scores_in_unit_interval.1 emptyCand emptyJob _
     (by simp [MatchingService.compute_time_score, emptyJob]),
   C1_scores_in_unit_interval.2.2.2.2 ⟨1, 1, 1, 1⟩ ⟨0.8, ""⟩ ⟨1, ""⟩ ⟨0.6, ""⟩ ⟨0.8, ""⟩
     (by norm_num) (by norm_num) (by norm_num) (by norm_num) (by norm_num) (by norm_num)
     (by norm_num) (by norm_num) (by norm_num) (by norm_num) (by norm_num) (by norm_num)⟩

/-- C2: the aggregate equals the spec formula (weighted sum over the
four factors divided by the total weight), and is exactly 0 when the
total weight is 0. -/
theorem C2_aggregate_is_weighted_mean (w : MatchingService.WeightVector)
    (t p c e : ScoreBreakdown) :
    MatchingService._aggregate_scores w t p c e =
      spec_final_score
        [(w.time, t.score), (w.place, p.score), (w.cost, c.score), (w.experience, e.score)] ∧
    (w.total = 0 → MatchingService._aggregate_scores w t p c e = 0) := by
  constructor
  · simp only [MatchingService._aggregate_scores, spec_final_score, List.map_cons,
      List.map_nil, List.sum_cons, List.sum_nil]
    have hsum : w.time + (w.place + (w.cost + (w.experience + 0))) = w.total := by
      simp only [MatchingService.WeightVector.total]
      ring
    rw [hsum]
    split
    · rfl
    · ring
  · intro h
    unfold MatchingService._aggregate_scores
    rw [h]
    simp

/-- Witness for C2: the aggregate of the zero weight vector is 0. -/
theorem C2_aggregate_is_weighted_mean_witness :
    (MatchingService.WeightVector.total ⟨0, 0, 0, 0⟩ = 0) ∧
    MatchingService._aggregate_scores ⟨0, 0, 0, 0⟩ ⟨1, ""⟩ ⟨1, ""⟩ ⟨1, ""⟩ ⟨1, ""⟩ = 0 :=
  have h0 : MatchingService.WeightVector.total ⟨0, 0, 0, 0⟩ = 0 := by
    norm_num [MatchingService.WeightVector.total]
  ⟨h0, (C2_aggregate_is_weighted_mean ⟨0, 0, 0, 0⟩ ⟨1, ""⟩ ⟨1, ""⟩ ⟨1, ""⟩ ⟨1, ""⟩).2 h0⟩

/-- C3: the ranked output of a job run is sorted in descending order
of final_score, the stable sort preserves the relative input order of
candidates with equal final_score (the filter at any fixed score value
is unchanged by the sort, and the truncated output filter is a sublist
of the input filter), and the output length is at most top_n. -/
theorem C3_ranked_sorted_stable_truncated (results : List MatchResult) (top_n : ℕ) :
    List.Pairwise (fun a b => b.final_score ≤ a.final_score) (rankResults results top_n) ∧
    (∀ q : ℚ, (results.mergeSort scoreDescBool).filter (fun r => decide (r.final_score = q)) =
        results.filter (fun r => decide (r.final_score = q))) ∧
    (∀ q : ℚ, ((rankResults results top_n).filter (fun r => decide (r.final_score = q))).Sublist
        (results.filter (fun r => decide (r.final_score = q)))) ∧
    (rankResults results top_n).length ≤ top_n := by
  have htrans : ∀ a b c : MatchResult, scoreDescBool a b → scoreDescBool b c →
      scoreDescBool a c := by
    intro a b c hab hbc
    simp only [scoreDescBool, decide_eq_true_eq] at *
    exact le_trans hbc hab
  have htotal : ∀ a b : MatchResult, (scoreDescBool a b || scoreDescBool b a) = true := by
    intro a b
    simp only [scoreDescBool, Bool.or_eq_true, decide_eq_true_eq]
    exact le_total b.final_score a.final_score
  have hsorted : (results.mergeSort scoreDescBool).Pairwise (fun a b => scoreDescBool a b = true) :=
    List.sorted_mergeSort htrans htotal results
  have hstab : ∀ q : ℚ, (results.mergeSort scoreDescBool).filter
      (fun r => decide (r.final_score = q)) =
      results.filter (fun r => decide (r.final_score = q)) := by
    intro q
    have hmem : ∀ r ∈ results.filter (fun r => decide (r.final_score = q)),
        r.final_score = q := by
      intro r hr
      simpa using List.of_mem_filter hr
    have hpair : (results.filter (fun r => decide (r.final_score = q))).Pairwise
        (fun a b => scoreDescBool a b = true) := by
      apply List.pairwise_of_forall_mem_list
      intro a ha b hb
      simp only [scoreDescBool, decide_eq_true_eq]
      rw [hmem a ha, hmem b hb]
    have hsub : (results.filter (fun r => decide (r.final_score = q))).Sublist
        (results.mergeSort scoreDescBool) :=
      List.sublist_mergeSort htrans htotal hpair (List.filter_sublist results)
    have hself : (results.filter (fun r => decide (r.final_score = q))).filter
        (fun r => decide (r.final_score = q)) =
        results.filter (fun r => decide (r.final_score = q)) := by
      rw [List.filter_eq_self]
      intro a ha
      simpa using List.of_mem_filter ha
    have h2 : (results.filter (fun r => decide (r.final_score = q))).Sublist
        ((results.mergeSort scoreDescBool).filter (fun r => decide (r.final_score = q))) := by
      have := hsub.filter (fun r => decide (r.final_score = q))
      rwa [hself] at this
    have hperm : ((results.mergeSort scoreDescBool).filter
        (fun r => decide (r.final_score = q))).Perm
        (results.filter (fun r => decide (r.final_score = q))) :=
      (List.mergeSort_perm results scoreDescBool).filter _
    exact (h2.eq_of_length hperm.length_eq.symm).symm
  refine ⟨?_, hstab, ?_, ?_⟩
  · have h1 : (rankResults results top_n).Pairwise (fun a b => scoreDescBool a b = true) :=
      hsorted.sublist (List.take_sublist _ _)
    exact h1.imp (by intro a b h; simpa [scoreDescBool] using h)
  · intro q
    have := (List.take_sublist top_n (results.mergeSort scoreDescBool)).filter
      (fun r => decide (r.final_score = q))
    rw [hstab q] at this
    exact this
  · exact List.length_take_le _ _

/-- Auxiliary: a background run either catches no exception or leaves
the cache exactly as it was. -/
theorem run_cache_unchanged_or_ok (env : DbEnv) (cache : MCache) (jid : String) :
    (MatchingService._execute_match_job_logic env cache jid).caught = none ∨
    (MatchingService._execute_match_job_logic env cache jid).cache = cache := by
  unfold MatchingService._execute_match_job_logic
  repeat' split
  all_goals first | exact Or.inl rfl | exact Or.inr rfl

/-- Auxiliary: the worker loop processes every queued job, regardless
of per-job outcomes. -/
theorem worker_count (envOf : String → DbEnv) (cache : MCache) (jobs : List String) :
    (JobQueue._worker envOf cache jobs).2 = jobs.length := by
  induction jobs generalizing cache with
  | nil => rfl
  | cons jid rest ih =>
    simp only [JobQueue._worker, ih, List.length_cons]

/-- C7: an exception anywhere in a job run is caught inside the run
(the run always returns normally, so the worker loop processes every
queued job), and a failed run leaves the cache entry for the job
unchanged; in particular, if nothing was cached before, a subsequent
get_match_results still returns the absent indicator. -/
theorem C7_failure_caught_and_cache_unchanged :
    (∀ env cache jid e,
        (MatchingService._execute_match_job_logic env cache jid).caught = some e →
        (MatchingService._execute_match_job_logic env cache jid).cache = cache) ∧
    (∀ envOf cache jobs, (JobQueue._worker envOf cache jobs).2 = jobs.length) ∧
    (∀ env cache jid e,
        (MatchingService._execute_match_job_logic env cache jid).caught = some e →
        mcacheGet cache (MatchingService._get_cache_key jid) = none →
        (MatchingService.get_match_results
            (MatchingService._execute_match_job_logic env cache jid).cache jid).1 = none) := by
  have hunch : ∀ env cache jid e,
      (MatchingService._execute_match_job_logic env cache jid).caught = some e →
      (MatchingService._execute_match_job_logic env cache jid).cache = cache := by
    intro env cache jid e h
    rcases run_cache_unchanged_or_ok env cache jid with h0 | h0
    · rw [h] at h0
      exact Option.noConfusion h0
    · exact h0
  refine ⟨hunch, worker_count, ?_⟩
  intro env cache jid e h hnone
  rw [hunch env cache jid e h]
  simpa [MatchingService.get_match_results] using hnone

/-- Witness for C7: with collaborator responses whose first db call
raises, the concrete run catches the exception, leaves the empty cache
empty, the worker still processes both queued jobs, and the accessor
still reports absence. -/
theorem C7_failure_caught_and_cache_unchanged_witness :
    (MatchingService._execute_match_job_logic envFails [] "j1").caught =
        some PyErr.valueError ∧
    (MatchingService._execute_match_job_logic envFails [] "j1").cache = ([] : MCache) ∧
    (JobQueue._worker (fun _ => envFails) [] ["j1", "j2"]).2 = 2 ∧
    mcacheGet [] (MatchingService._get_cache_key "j1") = none ∧
    (MatchingService.get_match_results
        (MatchingService._execute_match_job_logic envFails [] "j1").cache "j1").1 = none :=
  ⟨rfl,
   C7_failure_caught_and_cache_unchanged.1 envFails [] "j1" PyErr.valueError rfl,
   C7_failure_caught_and_cache_unchanged.2.1 (fun _ => envFails) [] ["j1", "j2"],
   rfl,
   C7_failure_caught_and_cache_unchanged.2.2 envFails [] "j1" PyErr.valueError rfl rfl⟩

/-- C10: a job whose location policy is a recognised-by-none string,
with a location point present and a candidate with at least one
location point entry, scores place 0.0 with reason Unknown policy. -/
theorem C10_unknown_policy_scores_zero
    (dist : LocationPoint → LocationPoint → ℚ) (c : CandidateProfile) (j : JobPosting)
    (p : String) (hp : j.location_policy = some p)
    (hr : p ≠ "remote") (ho : p ≠ "onsite") (hh : p ≠ "hybrid")
    (hpt : j.location_point.isSome) (hcp : c.location_points ≠ []) :
    MatchingService.compute_place_score dist c j = .ok ⟨0, "Unknown policy"⟩ := by
  obtain ⟨pt, hpt⟩ := Option.isSome_iff_exists.mp hpt
  have hemp : c.location_points.isEmpty = false := List.isEmpty_eq_false.mpr hcp
  simp only [MatchingService.compute_place_score, hp, Option.getD_some, hpt, hemp,
    if_neg hr, if_neg ho, if_neg hh]
  norm_num [_clamp]

/-- Witness for C10 at the concrete policy weird. -/
theorem C10_unknown_policy_scores_zero_witness :
    (jobWeirdPolicy.location_policy = some "weird") ∧
    ("weird" ≠ "remote") ∧ ("weird" ≠ "onsite") ∧ ("weird" ≠ "hybrid") ∧
    (jobWeirdPolicy.location_point.isSome = true) ∧
    (candOnePoint.location_points ≠ []) ∧
    MatchingService.compute_place_score zeroDist candOnePoint jobWeirdPolicy =
      .ok ⟨0, "Unknown policy"⟩ :=
  ⟨rfl, by decide, by decide, by decide, rfl, by simp [candOnePoint, emptyCand],
   C10_unknown_policy_scores_zero zeroDist candOnePoint jobWeirdPolicy "weird" rfl
     (by decide) (by decide) (by decide) rfl (by simp [candOnePoint, emptyCand])⟩

/-- C4 counterexample: against the claim that the scoring functions
never raise, the code raises ZeroDivisionError for a rate above a zero
max budget, KeyError for a window record missing its end key, and
ZeroDivisionError for a hybrid job with radius 0. -/
theorem C4_counterexample :
    MatchingService.compute_cost_score candRate100 jobMax0 =
        .error PyErr.zeroDivisionError ∧
    MatchingService.compute_time_score emptyCand jobMissingEnd = .error PyErr.keyError ∧
    MatchingService.compute_place_score zeroDist candOnePoint jobHybridR0 =
      .error PyErr.zeroDivisionError := by
  refine ⟨?_, ?_, ?_⟩
  · simp only [MatchingService.compute_cost_score, candRate100, jobMax0, emptyCand, emptyJob]
    norm_num
  · simp [MatchingService.compute_time_score, jobMissingEnd, emptyJob, emptyCand,
      MatchingService.requiredSeconds, parseTs, exceptErrBind, exceptOkBind]
  · simp [MatchingService.compute_place_score, jobHybridR0, candOnePoint, emptyCand, emptyJob]

/-- Auxiliary: parsing a present timestamp field either degrades to
the caught ValueError or succeeds. -/
theorem parseTs_not_key {t : TsVal} (h : t ≠ TsVal.missing) :
    parseTs t = .error PyErr.valueError ∨ ∃ q, parseTs t = .ok q := by
  cases t with
  | missing => exact absurd rfl h
  | malformed => exact Or.inl rfl
  | valid s => exact Or.inr ⟨s, rfl⟩

/-- Auxiliary: the required-seconds sum raises only the caught
ValueError when no window key is missing. -/
theorem requiredSeconds_not_key (ws : List JobWindow)
    (h : ∀ w ∈ ws, w.start ≠ TsVal.missing ∧ w.end_ ≠ TsVal.missing) :
    MatchingService.requiredSeconds ws = .error PyErr.valueError ∨
      ∃ q, MatchingService.requiredSeconds ws = .ok q := by
  induction ws with
  | nil => exact Or.inr ⟨0, rfl⟩
  | cons w ws ih =>
    have hw := h w (List.mem_cons_self w ws)
    rcases parseTs_not_key hw.2 with he | ⟨e, he⟩
    · left
      simp [MatchingService.requiredSeconds, he, exceptErrBind]
    · rcases parseTs_not_key hw.1 with hs | ⟨s, hs⟩
      · left
        simp [MatchingService.requiredSeconds, he, hs, exceptOkBind, exceptErrBind]
      · rcases ih (fun w hwm => h w (List.mem_cons_of_mem _ hwm)) with hr | ⟨r, hr⟩
        · left
          simp [MatchingService.requiredSeconds, he, hs, hr, exceptOkBind, exceptErrBind]
        · right
          exact ⟨(e - s) + r, by
            simp [MatchingService.requiredSeconds, he, hs, hr, exceptOkBind, exceptPure]⟩

/-- Auxiliary: the inner overlap loop raises only the caught
ValueError when no availability key is missing. -/
theorem overlapWith_not_key (js je : ℚ) (fws : List AvailabilityWindow)
    (h : ∀ fw ∈ fws, fw.start_ts ≠ TsVal.missing ∧ fw.end_ts ≠ TsVal.missing) :
    MatchingService.overlapWith js je fws = .error PyErr.valueError ∨
      ∃ q, MatchingService.overlapWith js je fws = .ok q := by
  induction fws with
  | nil => exact Or.inr ⟨0, rfl⟩
  | cons fw fws ih =>
    have hw := h fw (List.mem_cons_self fw fws)
    rcases parseTs_not_key hw.1 with hs | ⟨s, hs⟩
    · left
      simp [MatchingService.overlapWith, hs, exceptErrBind]
    · rcases parseTs_not_key hw.2 with he | ⟨e, he⟩
      · left
        simp [MatchingService.overlapWith, hs, he, exceptOkBind, exceptErrBind]
      · rcases ih (fun w hwm => h w (List.mem_cons_of_mem _ hwm)) with hr | ⟨r, hr⟩
        · left
          simp [MatchingService.overlapWith, hs, he, hr, exceptOkBind, exceptErrBind]
        · right
          refine ⟨(if max js s < min je e then min je e - max js s else 0) + r, ?_⟩
          simp [MatchingService.overlapWith, hs, he, hr, exceptOkBind, exceptPure]

/-- Auxiliary: the outer overlap loop raises only the caught
ValueError when no window key is missing on either side. -/
theorem overlapSeconds_not_key (fws : List AvailabilityWindow) (ws : List JobWindow)
    (hws : ∀ w ∈ ws, w.start ≠ TsVal.missing ∧ w.end_ ≠ TsVal.missing)
    (hfs : ∀ fw ∈ fws, fw.start_ts ≠ TsVal.missing ∧ fw.end_ts ≠ TsVal.missing) :
    MatchingService.overlapSeconds fws ws = .error PyErr.valueError ∨
      ∃ q, MatchingService.overlapSeconds fws ws = .ok q := by
  induction ws with
  | nil => exact Or.inr ⟨0, rfl⟩
  | cons w ws ih =>
    have hw := hws w (List.mem_cons_self w ws)
    rcases parseTs_not_key hw.1 with hs | ⟨s, hs⟩
    · left
      simp [MatchingService.overlapSeconds, hs, exceptErrBind]
    · rcases parseTs_not_key hw.2 with he | ⟨e, he⟩
      · left
        simp [MatchingService.overlapSeconds, hs, he, exceptOkBind, exceptErrBind]
      · rcases overlapWith_not_key s e fws hfs with hi | ⟨i, hi⟩
        · left
          simp [MatchingService.overlapSeconds, hs, he, hi, exceptOkBind, exceptErrBind]
        · rcases ih (fun w hwm => hws w (List.mem_cons_of_mem _ hwm)) with hr | ⟨r, hr⟩
          · left
            simp [MatchingService.overlapSeconds, hs, he, hi, hr, exceptOkBind, exceptErrBind]
          · right
            exact ⟨i + r, by
              simp [MatchingService.overlapSeconds, hs, he, hi, hr, exceptOkBind, exceptPure]⟩

/-- Auxiliary: if no window key is missing but some present timestamp
is unparseable, the required-seconds sum raises exactly the caught
ValueError. -/
theorem requiredSeconds_malformed (ws : List JobWindow) :
    (∀ w ∈ ws, w.start ≠ TsVal.missing ∧ w.end_ ≠ TsVal.missing) →
    (∃ w ∈ ws, w.start = TsVal.malformed ∨ w.end_ = TsVal.malformed) →
    MatchingService.requiredSeconds ws = .error PyErr.valueError := by
  induction ws with
  | nil =>
    intro _ hmal
    simp at hmal
  | cons w ws ih =>
    intro hnm hmal
    have hw := hnm w (List.mem_cons_self w ws)
    rcases hmal with ⟨w', hw', hm'⟩
    rcases List.mem_cons.mp hw' with rfl | htail
    · rcases hm' with hms | hme
      · cases he : w'.end_ with
        | missing => exact absurd he hw.2
        | malformed =>
          simp [MatchingService.requiredSeconds, he, parseTs, exceptErrBind]
        | valid s =>
          simp [MatchingService.requiredSeconds, he, hms, parseTs, exceptOkBind,
            exceptErrBind]
      · simp [MatchingService.requiredSeconds, hme, parseTs, exceptErrBind]
    · have hrest := ih (fun x hx => hnm x (List.mem_cons_of_mem _ hx)) ⟨w', htail, hm'⟩
      rcases parseTs_not_key hw.2 with he | ⟨e, he⟩
      · simp [MatchingService.requiredSeconds, he, exceptErrBind]
      · rcases parseTs_not_key hw.1 with hs | ⟨s, hs⟩
        · simp [MatchingService.requiredSeconds, he, hs, exceptOkBind, exceptErrBind]
        · simp [MatchingService.requiredSeconds, he, hs, hrest, exceptOkBind,
            exceptErrBind]

/-- Auxiliary: with every window key present and some window timestamp
unparseable, the time score catches the ValueError and degrades to the
0.2 fallback. -/
theorem time_malformed_02 (c : CandidateProfile) (j : JobPosting)
    (sched : ScheduleRequirements) (ws : List JobWindow)
    (hs : j.schedule_requirements = some sched) (hw : sched.windows = some ws)
    (hnm : ∀ w ∈ ws, w.start ≠ TsVal.missing ∧ w.end_ ≠ TsVal.missing)
    (hmal : ∃ w ∈ ws, w.start = TsVal.malformed ∨ w.end_ = TsVal.malformed) :
    MatchingService.compute_time_score c j = .ok ⟨0.2, "Error parsing time data."⟩ := by
  have hreq := requiredSeconds_malformed ws hnm hmal
  unfold MatchingService.compute_time_score
  rw [hs]
  simp [hw, hreq, exceptErrBind]

/-- Auxiliary: the time score returns a breakdown (never raises) as
long as no window record on either side is missing its start/end key. -/
theorem time_isOk_of_no_missing (c : CandidateProfile) (j : JobPosting)
    (hj : ∀ sched ws, j.schedule_requirements = some sched → sched.windows = some ws →
        ∀ w ∈ ws, w.start ≠ TsVal.missing ∧ w.end_ ≠ TsVal.missing)
    (hc : ∀ fw ∈ c.availability, fw.start_ts ≠ TsVal.missing ∧ fw.end_ts ≠ TsVal.missing) :
    (MatchingService.compute_time_score c j).isOk = true := by
  unfold MatchingService.compute_time_score
  cases hs : j.schedule_requirements with
  | none => rfl
  | some sched =>
    cases hw : sched.windows with
    | none => simp [hw, Except.isOk, Except.toBool]
    | some ws =>
      have hws := hj sched ws hs hw
      rcases requiredSeconds_not_key ws hws with hr | ⟨r, hr⟩
      · simp [hw, hr, exceptErrBind, Except.isOk, Except.toBool]
      · rcases overlapSeconds_not_key c.availability ws hws hc with ho | ⟨o, ho⟩
        · simp [hw, hr, ho, exceptOkBind, exceptErrBind, Except.isOk, Except.toBool]
        · simp [hw, hr, ho, exceptOkBind, exceptPure, Except.isOk, Except.toBool]

/-- Auxiliary: the place score returns a breakdown (never raises)
whenever the effective radius is nonzero. -/
theorem place_isOk_of_radius_ne (dist : LocationPoint → LocationPoint → ℚ)
    (c : CandidateProfile) (j : JobPosting) (h : j.location_radius_km.getD 50 ≠ 0) :
    (MatchingService.compute_place_score dist c j).isOk = true := by
  unfold MatchingService.compute_place_score
  by_cases h1 : j.location_policy.getD "remote" = "remote"
  · simp [h1, Except.isOk, Except.toBool]
  · cases hpt : j.location_point with
    | none => simp [h1, hpt, Except.isOk, Except.toBool]
    | some jp =>
      by_cases h2 : c.location_points.isEmpty = true
      · simp [h1, hpt, h2, Except.isOk, Except.toBool]
      · by_cases h3 : j.location_policy.getD "remote" = "onsite"
        · simp [h1, hpt, h2, h3, Except.isOk, Except.toBool]
        · by_cases h4 : j.location_policy.getD "remote" = "hybrid"
          · have hz : j.location_radius_km.getD 50 * 2 ≠ 0 := by
              intro h0
              rcases mul_eq_zero.mp h0 with h5 | h5
              · exact h h5
              · norm_num at h5
            cases hmd : MatchingService.minDistKm dist jp c.location_points with
            | none =>
              by_cases h5 : j.location_radius_km.getD 50 * 2 > 0 <;>
                simp [h1, hpt, h2, h3, h4, hz, hmd, h5, Except.isOk, Except.toBool]
            | some d => simp [h1, hpt, h2, h3, h4, hz, hmd, Except.isOk, Except.toBool]
          · simp [h1, hpt, h2, h3, h4, Except.isOk, Except.toBool]

/-- Auxiliary: the cost score returns a breakdown (never raises)
whenever any present max budget bound is positive. -/
theorem cost_isOk_of_pos_max (c : CandidateProfile) (j : JobPosting)
    (hmax : ∀ m, j.price_policy_max = some m → 0 < m) :
    (MatchingService.compute_cost_score c j).isOk = true := by
  unfold MatchingService.compute_cost_score
  cases hr : c.hourly_rate with
  | none => rfl
  | some rate =>
    cases hmin : j.price_policy_min with
    | none => rfl
    | some jmin =>
      cases hmx : j.price_policy_max with
      | none => rfl
      | some jmax =>
        have hpos : 0 < jmax := hmax jmax hmx
        by_cases hin : jmin ≤ rate ∧ rate ≤ jmax
        · simp [hin, Except.isOk, Except.toBool]
        · by_cases hgt : rate > jmax
          · have hne2 : 1 + (rate - jmax) / jmax ≠ 0 := by
              have hd : 0 < (rate - jmax) / jmax := div_pos (by linarith) hpos
              intro h0
              linarith
            simp [hin, hgt, hpos.ne', hne2, Except.isOk, Except.toBool]
          · simp [hin, hgt, Except.isOk, Except.toBool]

/-- C4 amended: data-quality inputs degrade rather than raise only
away from the raising inputs.  With every window key present,
unparseable (malformed) timestamps in the job windows degrade to the
documented 0.2 fallback breakdown; the time score never raises when no
window record on either side is missing its start/end key, the place
score never raises when the effective radius is nonzero, and the cost
score never raises when any present max bound is positive; the
experience score is total in the typed model.  At the excluded inputs
the functions raise, per the counterexample. -/
theorem C4_guarded_fallbacks_no_raise :
    (∀ c (j : JobPosting) sched ws, j.schedule_requirements = some sched →
        sched.windows = some ws →
        (∀ w ∈ ws, w.start ≠ TsVal.missing ∧ w.end_ ≠ TsVal.missing) →
        (∃ w ∈ ws, w.start = TsVal.malformed ∨ w.end_ = TsVal.malformed) →
        MatchingService.compute_time_score c j =
          .ok ⟨0.2, "Error parsing time data."⟩) ∧
    (∀ c (j : JobPosting),
        (∀ sched ws, j.schedule_requirements = some sched → sched.windows = some ws →
            ∀ w ∈ ws, w.start ≠ TsVal.missing ∧ w.end_ ≠ TsVal.missing) →
        (∀ fw ∈ c.availability, fw.start_ts ≠ TsVal.missing ∧ fw.end_ts ≠ TsVal.missing) →
        (MatchingService.compute_time_score c j).isOk = true) ∧
    (∀ dist c (j : JobPosting), j.location_radius_km.getD 50 ≠ 0 →
        (MatchingService.compute_place_score dist c j).isOk = true) ∧
    (∀ c (j : JobPosting), (∀ m, j.price_policy_max = some m → 0 < m) →
        (MatchingService.compute_cost_score c j).isOk = true) :=
  ⟨time_malformed_02, time_isOk_of_no_missing, place_isOk_of_radius_ne, cost_isOk_of_pos_max⟩

/-- Witness for the amended C4: a malformed-but-present window
timestamp degrades to the 0.2 breakdown without raising, the default
radius is nonzero so the place score returns, and a positive max
budget lets the cost score return. -/
theorem C4_guarded_fallbacks_no_raise_witness :
    (MatchingService.compute_time_score emptyCand jobMalformed =
        .ok ⟨0.2, "Error parsing time data."⟩) ∧
    (MatchingService.compute_time_score emptyCand jobMalformed).isOk = true ∧
    (emptyJob.location_radius_km.getD 50 ≠ 0) ∧
    (MatchingService.compute_place_score zeroDist emptyCand emptyJob).isOk = true ∧
    (jobBudget.price_policy_max = some 120) ∧ ((0 : ℚ) < 120) ∧
    (MatchingService.compute_cost_score candRate100 jobBudget).isOk = true := by
  have hnom : ∀ w ∈ [(⟨TsVal.malformed, TsVal.valid 17⟩ : JobWindow)],
      w.start ≠ TsVal.missing ∧ w.end_ ≠ TsVal.missing := by
    intro w hwmem
    simp only [List.mem_singleton] at hwmem
    subst hwmem
    exact ⟨by simp, by simp⟩
  have hjm : ∀ sched ws, jobMalformed.schedule_requirements = some sched →
      sched.windows = some ws →
      ∀ w ∈ ws, w.start ≠ TsVal.missing ∧ w.end_ ≠ TsVal.missing := by
    intro sched ws hs hw
    have hs0 : (some (⟨some [⟨TsVal.malformed, TsVal.valid 17⟩], none⟩ :
        ScheduleRequirements) : Option ScheduleRequirements) = some sched := hs
    cases Option.some.inj hs0
    have hw0 : (some [(⟨TsVal.malformed, TsVal.valid 17⟩ : JobWindow)] :
        Option (List JobWindow)) = some ws := hw
    cases Option.some.inj hw0
    exact hnom
  have hrad : emptyJob.location_radius_km.getD 50 ≠ 0 := by norm_num [emptyJob]
  have hbud : ∀ m, jobBudget.price_policy_max = some m → 0 < m := by
    intro m hm
    have h0 : (some (120 : ℚ) : Option ℚ) = some m := hm
    cases Option.some.inj h0
    norm_num
  exact ⟨C4_guarded_fallbacks_no_raise.1 emptyCand jobMalformed
      ⟨some [⟨TsVal.malformed, TsVal.valid 17⟩], none⟩ [⟨TsVal.malformed, TsVal.valid 17⟩]
      rfl rfl hnom
      ⟨⟨TsVal.malformed, TsVal.valid 17⟩, List.mem_singleton.mpr rfl, Or.inl rfl⟩,
    C4_guarded_fallbacks_no_raise.2.1 emptyCand jobMalformed hjm
      (by intro fw hfw; simp [emptyCand] at hfw),
    hrad,
    C4_guarded_fallbacks_no_raise.2.2.1 zeroDist emptyCand emptyJob hrad,
    rfl, by norm_num,
    C4_guarded_fallbacks_no_raise.2.2.2 candRate100 jobBudget hbud⟩

set_option maxHeartbeats 800000 in
/-- Auxiliary: on a job whose windows list is present but empty, the
time score is 0 (0.15 with the flexible bonus), because the overlap
ratio degenerates to 0 rather than hitting the no-preference 0.8. -/
theorem time_empty_windows (c : CandidateProfile) (j : JobPosting)
    (sched : ScheduleRequirements)
    (h1 : j.schedule_requirements = some sched) (h2 : sched.windows = some []) :
    (MatchingService.compute_time_score c j).toOption.map ScoreBreakdown.score =
      some (if sched.type_ = some "flexible" then (0.15 : ℚ) else 0) := by
  have hc0 : _clamp 0 = 0 := by norm_num [_clamp]
  by_cases hflex : sched.type_ = some "flexible" <;>
    simp only [MatchingService.compute_time_score, h1, h2, hflex,
      MatchingService.requiredSeconds, MatchingService.overlapSeconds, exceptOkBind,
      exceptPure, if_true, if_false, ite_true, ite_false, hc0,
      Except.toOption, Option.map_some] <;>
    norm_num [_clamp]

/-- C5 counterexample: a job whose schedule requirements carry an
empty windows list scores 0, not the claimed 0.8. -/
theorem C5_counterexample :
    ((MatchingService.compute_time_score emptyCand jobEmptyWindows).toOption.map
        ScoreBreakdown.score = some 0) ∧ (0 : ℚ) ≠ 0.8 := by
  constructor
  · have h := time_empty_windows emptyCand jobEmptyWindows ⟨some [], none⟩ rfl rfl
    simpa using h
  · norm_num

/-- C5 amended: the fixed 0.8 no-preference score applies exactly when
the schedule_requirements key or its windows key is absent; a job
whose windows key holds an empty list instead scores 0 (0.15 if the
schedule is flexible). -/
theorem C5_no_windows_returns_08_amended :
    (∀ c (j : JobPosting), j.schedule_requirements = none →
        MatchingService.compute_time_score c j =
          .ok ⟨0.8, "Job has no specific time requirements."⟩) ∧
    (∀ c (j : JobPosting) sched, j.schedule_requirements = some sched →
        sched.windows = none →
        MatchingService.compute_time_score c j =
          .ok ⟨0.8, "Job has no specific time requirements."⟩) ∧
    (∀ c (j : JobPosting) sched, j.schedule_requirements = some sched →
        sched.windows = some [] →
        (MatchingService.compute_time_score c j).toOption.map ScoreBreakdown.score =
          some (if sched.type_ = some "flexible" then (0.15 : ℚ) else 0)) := by
  refine ⟨?_, ?_, time_empty_windows⟩
  · intro c j h
    simp [MatchingService.compute_time_score, h]
  · intro c j sched h1 h2
    simp [MatchingService.compute_time_score, h1, h2]

/-- Witness for the amended C5 at the concrete fixtures. -/
theorem C5_no_windows_returns_08_amended_witness :
    (emptyJob.schedule_requirements = none) ∧
    (MatchingService.compute_time_score emptyCand emptyJob =
      .ok ⟨0.8, "Job has no specific time requirements."⟩) ∧
    (jobEmptyWindows.schedule_requirements = some ⟨some [], none⟩) ∧
    ((⟨some [], none⟩ : ScheduleRequirements).windows = some []) ∧
    ((MatchingService.compute_time_score emptyCand jobEmptyWindows).toOption.map
        ScoreBreakdown.score = some 0) := by
  refine ⟨rfl, C5_no_windows_returns_08_amended.1 emptyCand emptyJob rfl, rfl, rfl, ?_⟩
  have h := C5_no_windows_returns_08_amended.2.2 emptyCand jobEmptyWindows
    ⟨some [], none⟩ rfl rfl
  simpa using h

/-- C6 counterexample: a cache miss in get_match_results returns the
absent indicator with zero candidate-source calls and zero cache
writes, not the one pipeline run and one cache write the claim
attributes to the read path. -/
theorem C6_counterexample :
    (MatchingService.get_match_results [] "job1").1 = none ∧
    (MatchingService.get_match_results [] "job1").2.countP Effect.isDbCall = 0 ∧
    (MatchingService.get_match_results [] "job1").2.countP Effect.isCacheWrite = 0 ∧
    (0 : ℕ) ≠ 1 :=
  ⟨rfl, rfl, rfl, by decide⟩

/-- Auxiliary: every run performs at most one cache write, and a run
that raises nothing and reaches the save_matches persistence call
performs exactly one cache write. -/
theorem run_write_count (env : DbEnv) (cache : MCache) (jid : String) :
    ((MatchingService._execute_match_job_logic env cache jid).trace.countP
        Effect.isCacheWrite ≤ 1) ∧
    ((MatchingService._execute_match_job_logic env cache jid).caught = none →
      Effect.dbCall "save_matches" ∈
        (MatchingService._execute_match_job_logic env cache jid).trace →
      (MatchingService._execute_match_job_logic env cache jid).trace.countP
        Effect.isCacheWrite = 1) := by
  unfold MatchingService._execute_match_job_logic
  repeat' split
  all_goals constructor
  all_goals simp [List.countP_append, List.countP_cons, Effect.isCacheWrite]

/-- C6 amended: a cache hit returns the cached list with zero
candidate-source calls; a cache miss returns the absent indicator,
itself performing zero candidate-source calls and zero cache writes
(the read path never triggers computation); computation happens only
in the pipeline run, which performs at most one cache write, and
exactly one when it completes through persistence without raising. -/
theorem C6_cache_aside_amended :
    (∀ (cache : MCache) jid l,
        mcacheGet cache (MatchingService._get_cache_key jid) = some l →
        (MatchingService.get_match_results cache jid).1 = some l ∧
        (MatchingService.get_match_results cache jid).2.countP Effect.isDbCall = 0) ∧
    (∀ (cache : MCache) jid,
        mcacheGet cache (MatchingService._get_cache_key jid) = none →
        (MatchingService.get_match_results cache jid).1 = none ∧
        (MatchingService.get_match_results cache jid).2.countP Effect.isDbCall = 0 ∧
        (MatchingService.get_match_results cache jid).2.countP Effect.isCacheWrite = 0) ∧
    (∀ env (cache : MCache) jid,
        (MatchingService._execute_match_job_logic env cache jid).trace.countP
          Effect.isCacheWrite ≤ 1) ∧
    (∀ env (cache : MCache) jid,
        (MatchingService._execute_match_job_logic env cache jid).caught = none →
        Effect.dbCall "save_matches" ∈
          (MatchingService._execute_match_job_logic env cache jid).trace →
        (MatchingService._execute_match_job_logic env cache jid).trace.countP
          Effect.isCacheWrite = 1) := by
  refine ⟨?_, ?_, fun env cache jid => (run_write_count env cache jid).1,
    fun env cache jid => (run_write_count env cache jid).2⟩
  · intro cache jid l h
    exact ⟨by simpa [MatchingService.get_match_results] using h,
      by simp [MatchingService.get_match_results, Effect.isDbCall]⟩
  · intro cache jid h
    exact ⟨by simpa [MatchingService.get_match_results] using h,
      by simp [MatchingService.get_match_results, Effect.isDbCall],
      by simp [MatchingService.get_match_results, Effect.isCacheWrite]⟩

/-- Witness for the amended C6: a concrete hit returns the cached
list, a concrete miss returns the absent indicator, and the concrete
successful run performs exactly one cache write. -/
theorem C6_cache_aside_amended_witness :
    (mcacheGet cacheJ1 (MatchingService._get_cache_key "j1") = some []) ∧
    ((MatchingService.get_match_results cacheJ1 "j1").1 = some [] ∧
      (MatchingService.get_match_results cacheJ1 "j1").2.countP Effect.isDbCall = 0) ∧
    (mcacheGet [] (MatchingService._get_cache_key "j2") = none) ∧
    ((MatchingService.get_match_results ([] : MCache) "j2").1 = none) ∧
    ((MatchingService._execute_match_job_logic envOk [] "j1").caught = none) ∧
    (Effect.dbCall "save_matches" ∈
      (MatchingService._execute_match_job_logic envOk [] "j1").trace) ∧
    ((MatchingService._execute_match_job_logic envOk [] "j1").trace.countP
      Effect.isCacheWrite = 1) :=
  ⟨rfl,
   C6_cache_aside_amended.1 cacheJ1 "j1" [] rfl,
   rfl,
   (C6_cache_aside_amended.2.1 [] "j2" rfl).1,
   rfl,
   by decide,
   C6_cache_aside_amended.2.2.2 envOk [] "j1" rfl (by decide)⟩

/-!  Round-trip of the JSON encoding used by CacheClient (set followed
by get returns an equal value).  -/

/-- A String is its character list. -/
theorem string_mk_data (s : String) : String.mk s.data = s := rfl

theorem parseStrChars_ppStrBody (cs : List Char) (rest : List Char) :
    parseStrChars (ppStrBody cs ++ rest) = some (cs, rest) := by
  induction cs with
  | nil =>
    rw [show ppStrBody [] = ['"'] from rfl, List.cons_append, List.nil_append,
      parseStrChars.eq_def]
    simp
  | cons c cs ih =>
    by_cases hc : c = '"' ∨ c = '\\'
    · rcases hc with rfl | rfl
      · rw [show ppStrBody ('"' :: cs) = '\\' :: '"' :: ppStrBody cs from rfl,
          List.cons_append, List.cons_append, parseStrChars.eq_def]
        simp [ih]
      · rw [show ppStrBody ('\\' :: cs) = '\\' :: '\\' :: ppStrBody cs from rfl,
          List.cons_append, List.cons_append, parseStrChars.eq_def]
        simp [ih]
    · push_neg at hc
      rw [show ppStrBody (c :: cs) = c :: ppStrBody cs from if_neg (by
          intro h
          rcases h with h | h
          · exact hc.1 h
          · exact hc.2 h), List.cons_append, parseStrChars.eq_def]
      simp [hc.1, hc.2, ih]

theorem digit_char_spec (d : ℕ) (h : d < 10) :
    (Char.ofNat (48 + d)).isDigit = true ∧ (Char.ofNat (48 + d)).toNat - 48 = d := by
  interval_cases d <;> exact ⟨by decide, by decide⟩

theorem ppNat_ne_nil (n : ℕ) : ppNat n ≠ [] := by
  unfold ppNat
  split
  · simp
  · rename_i h
    simp [Nat.digits_ne_nil_iff_ne_zero.mpr h]

theorem ppNat_all_digits (n : ℕ) : ∀ c ∈ ppNat n, c.isDigit = true := by
  intro c hc
  unfold ppNat at hc
  split at hc
  · simp at hc
    subst hc
    decide
  · rename_i h
    simp only [List.mem_map, List.mem_reverse] at hc
    obtain ⟨d, hd, rfl⟩ := hc
    exact (digit_char_spec d (Nat.digits_lt_base (by norm_num) hd)).1

theorem parseDigits_spec (ds rest : List Char) (h : ∀ c ∈ ds, c.isDigit = true)
    (hr : noDigitHead rest = true) :
    parseDigits (ds ++ rest) = (ds.map (fun c => c.toNat - 48), rest) := by
  induction ds with
  | nil =>
    simp only [List.nil_append, List.map_nil]
    cases rest with
    | nil => rfl
    | cons c t =>
      simp only [noDigitHead, Bool.not_eq_true'] at hr
      simp [parseDigits, hr]
  | cons c ds ih =>
    have hc := h c (List.mem_cons_self c ds)
    simp only [List.cons_append, parseDigits, hc, if_pos, List.append_eq,
      ih (fun x hx => h x (List.mem_cons_of_mem _ hx)), List.map_cons]

theorem foldl_digits (l : List ℕ) (acc : ℕ) :
    l.reverse.foldl (fun a d => 10 * a + d) acc = acc * 10 ^ l.length + Nat.ofDigits 10 l := by
  induction l generalizing acc with
  | nil => simp
  | cons d l ih =>
    simp only [List.reverse_cons, List.foldl_append, List.foldl_cons, List.foldl_nil, ih,
      Nat.ofDigits_cons, List.length_cons]
    ring

theorem digitsToNat_ppNat (n : ℕ) :
    digitsToNat ((ppNat n).map (fun c => c.toNat - 48)) = n := by
  unfold ppNat
  split
  · rename_i h
    subst h
    decide
  · rename_i h
    rw [List.map_map]
    have hmap : (Nat.digits 10 n).reverse.map
        ((fun c => c.toNat - 48) ∘ (fun d => Char.ofNat (48 + d))) =
        (Nat.digits 10 n).reverse := by
      apply List.map_congr_left ?_ |>.trans (List.map_id _)
      intro d hd
      have hd10 : d < 10 :=
        Nat.digits_lt_base (by norm_num) (List.mem_reverse.mp hd)
      exact (digit_char_spec d hd10).2
    rw [hmap]
    unfold digitsToNat
    rw [foldl_digits]
    simp [Nat.ofDigits_digits]

theorem ppNat_head (n : ℕ) : ∃ c t, ppNat n = c :: t ∧ c.isDigit = true := by
  cases hp : ppNat n with
  | nil => exact absurd hp (ppNat_ne_nil n)
  | cons c t =>
    exact ⟨c, t, rfl, ppNat_all_digits n c (hp ▸ List.mem_cons_self c t)⟩

theorem parseDigits_ppNat (m : ℕ) (rest : List Char) (hr : noDigitHead rest = true) :
    parseDigits (ppNat m ++ rest) = ((ppNat m).map (fun c => c.toNat - 48), rest) :=
  parseDigits_spec _ _ (ppNat_all_digits m) hr

theorem numTailOk_noDigit (cs : List Char) (h : numTailOk cs = true) :
    noDigitHead cs = true := by
  cases cs with
  | nil => rfl
  | cons c t =>
    simp only [numTailOk, Bool.and_eq_true, Bool.not_eq_true'] at h
    simp [noDigitHead, h.1]

theorem digits_len_le_of_lt (m k : ℕ) (h : m < 10 ^ k) : (Nat.digits 10 m).length ≤ k := by
  rcases Nat.eq_zero_or_pos m with rfl | hm
  · simp
  · rw [Nat.digits_len 10 m (by norm_num) (by omega)]
    have := Nat.log_lt_of_lt_pow (by omega : m ≠ 0) h
    omega

theorem ppNat_len_le (a k : ℕ) (hk : 1 ≤ k) (h : a < 10 ^ k) : (ppNat a).length ≤ k := by
  unfold ppNat
  split
  · simpa
  · rw [List.length_map, List.length_reverse]
    exact digits_len_le_of_lt a k h

theorem padZeros_length (k : ℕ) (l : List Char) (h : l.length ≤ k) :
    (padZeros k l).length = k := by
  unfold padZeros
  simp only [List.length_append, List.length_replicate]
  omega

theorem padZeros_all_digits (k : ℕ) (l : List Char) (h : ∀ c ∈ l, c.isDigit = true) :
    ∀ c ∈ padZeros k l, c.isDigit = true := by
  intro c hc
  unfold padZeros at hc
  rcases List.mem_append.mp hc with h0 | h0
  · have := List.eq_of_mem_replicate h0
    subst this
    decide
  · exact h c h0

theorem digitsToNat_rep_zero (j : ℕ) (ds : List ℕ) :
    digitsToNat (List.replicate j 0 ++ ds) = digitsToNat ds := by
  unfold digitsToNat
  rw [List.foldl_append]
  have hz : List.foldl (fun acc d => 10 * acc + d) 0 (List.replicate j 0) = 0 := by
    induction j with
    | zero => rfl
    | succ j ih => rw [List.replicate_succ, List.foldl_cons]; simpa using ih
  rw [hz]

theorem digitsToNat_padZeros (k a : ℕ) :
    digitsToNat ((padZeros k (ppNat a)).map (fun c => c.toNat - 48)) = a := by
  unfold padZeros
  rw [List.map_append]
  have hrep : (List.replicate (k - (ppNat a).length) '0').map (fun c => c.toNat - 48) =
      List.replicate (k - (ppNat a).length) 0 := by
    simp [List.map_replicate]
  rw [hrep, digitsToNat_rep_zero, digitsToNat_ppNat]

theorem parseUnsigned_ppNat (a : ℕ) (rest : List Char) (hr : numTailOk rest = true) :
    parseUnsigned (ppNat a ++ rest) = some (.int (a : ℤ), rest) := by
  obtain ⟨c, t, hct, hcd⟩ := ppNat_head a
  have hm : (c.toNat - 48) :: t.map (fun x => x.toNat - 48) =
      (ppNat a).map (fun x => x.toNat - 48) := by
    rw [hct]
    rfl
  unfold parseUnsigned
  rw [parseDigits_ppNat a rest (numTailOk_noDigit rest hr), hct, List.map_cons]
  cases rest with
  | nil => simp only [hm, digitsToNat_ppNat]
  | cons d r2 =>
    simp only [numTailOk, Bool.and_eq_true, Bool.not_eq_true', beq_eq_false_iff_ne,
      ne_eq] at hr
    simp only [if_neg hr.2, hm, digitsToNat_ppNat]

theorem parseUnsigned_ppFrac (a e : ℕ) (rest : List Char) (hr : noDigitHead rest = true) :
    parseUnsigned (ppFrac a e ++ rest) = some (.dec (a : ℤ) e, rest) := by
  obtain ⟨c, t, hct, hcd⟩ := ppNat_head (a / 10 ^ (e + 1))
  have hm : (c.toNat - 48) :: t.map (fun x => x.toNat - 48) =
      (ppNat (a / 10 ^ (e + 1))).map (fun x => x.toNat - 48) := by
    rw [hct]
    rfl
  have hpadlen : (padZeros (e + 1) (ppNat (a % 10 ^ (e + 1)))).length = e + 1 :=
    padZeros_length _ _ (ppNat_len_le _ _ (by omega)
      (Nat.mod_lt _ (by positivity)))
  have hpaddig := padZeros_all_digits (e + 1) (ppNat (a % 10 ^ (e + 1)))
    (ppNat_all_digits _)
  have hpad : parseDigits (padZeros (e + 1) (ppNat (a % 10 ^ (e + 1))) ++ rest) =
      ((padZeros (e + 1) (ppNat (a % 10 ^ (e + 1)))).map (fun x => x.toNat - 48), rest) :=
    parseDigits_spec _ _ hpaddig hr
  have happ : ppFrac a e ++ rest =
      ppNat (a / 10 ^ (e + 1)) ++
        ('.' :: (padZeros (e + 1) (ppNat (a % 10 ^ (e + 1))) ++ rest)) := by
    unfold ppFrac
    simp
  unfold parseUnsigned
  rw [happ, parseDigits_ppNat _ _ (by rfl), hct, List.map_cons]
  simp only [hpad, hm, digitsToNat_ppNat, reduceIte]
  have hpadne : (padZeros (e + 1) (ppNat (a % 10 ^ (e + 1)))) ≠ [] := by
    intro h0
    rw [h0] at hpadlen
    simp at hpadlen
  obtain ⟨pc, pt, hpct⟩ := List.exists_cons_of_ne_nil hpadne
  rw [hpct, List.map_cons]
  have hmp : (pc.toNat - 48) :: pt.map (fun x => x.toNat - 48) =
      (padZeros (e + 1) (ppNat (a % 10 ^ (e + 1)))).map (fun x => x.toNat - 48) := by
    rw [hpct]
    rfl
  simp only [hmp, digitsToNat_padZeros, List.length_map, hpadlen, Nat.add_sub_cancel]
  rw [Nat.div_add_mod']

theorem ppFrac_head (a e : ℕ) : ∃ c t, ppFrac a e = c :: t ∧ c.isDigit = true := by
  obtain ⟨c, t, hct, hd⟩ := ppNat_head (a / 10 ^ (e + 1))
  refine ⟨c, t ++ '.' :: padZeros (e + 1) (ppNat (a % 10 ^ (e + 1))), ?_, hd⟩
  unfold ppFrac
  rw [hct]
  rfl

theorem parseNumber_ppNum (n : JNum) (rest : List Char) (hr : numTailOk rest = true) :
    parseNumber (ppNum n ++ rest) = some (.num n, rest) := by
  cases n with
  | int m =>
    by_cases hneg : m < 0
    · obtain ⟨c, t, hct, hd⟩ := ppNat_head m.natAbs
      have hcI : c ≠ 'I' := fun h => absurd hd (by subst h; decide)
      have habs : -((m.natAbs : ℕ) : ℤ) = m := by omega
      rw [show ppNum (.int m) = '-' :: ppNat m.natAbs from by
          rw [show ppNum (.int m) = ppInt m from rfl]
          exact if_pos hneg,
        List.cons_append, parseNumber.eq_def]
      rw [hct, List.cons_append]
      simp only [reduceIte, if_neg hcI]
      rw [← List.cons_append, ← hct, parseUnsigned_ppNat m.natAbs rest hr]
      simp [negNum, habs]
      rw [abs_of_neg hneg, neg_neg]
    · obtain ⟨c, t, hct, hd⟩ := ppNat_head m.toNat
      have hcN : c ≠ 'N' := fun h => absurd hd (by subst h; decide)
      have hcI : c ≠ 'I' := fun h => absurd hd (by subst h; decide)
      have hcM : c ≠ '-' := fun h => absurd hd (by subst h; decide)
      have htn : ((m.toNat : ℕ) : ℤ) = m := by omega
      rw [show ppNum (.int m) = ppNat m.toNat from by
          rw [show ppNum (.int m) = ppInt m from rfl]
          exact if_neg hneg,
        hct, List.cons_append, parseNumber.eq_def]
      simp only [if_neg hcN, if_neg hcI, if_neg hcM]
      rw [← List.cons_append, ← hct, parseUnsigned_ppNat m.toNat rest hr]
      simp [htn]
  | dec m e =>
    by_cases hneg : m < 0
    · obtain ⟨c, t, hct, hd⟩ := ppFrac_head m.natAbs e
      have hcI : c ≠ 'I' := fun h => absurd hd (by subst h; decide)
      have habs : -((m.natAbs : ℕ) : ℤ) = m := by omega
      rw [show ppNum (.dec m e) = '-' :: ppFrac m.natAbs e from if_pos hneg,
        List.cons_append, parseNumber.eq_def]
      rw [hct, List.cons_append]
      simp only [reduceIte, if_neg hcI]
      rw [← List.cons_append, ← hct,
        parseUnsigned_ppFrac m.natAbs e rest (numTailOk_noDigit rest hr)]
      simp [negNum, habs]
      rw [abs_of_neg hneg, neg_neg]
    · obtain ⟨c, t, hct, hd⟩ := ppFrac_head m.toNat e
      have hcN : c ≠ 'N' := fun h => absurd hd (by subst h; decide)
      have hcI : c ≠ 'I' := fun h => absurd hd (by subst h; decide)
      have hcM : c ≠ '-' := fun h => absurd hd (by subst h; decide)
      have htn : ((m.toNat : ℕ) : ℤ) = m := by omega
      rw [show ppNum (.dec m e) = ppFrac m.toNat e from if_neg hneg,
        hct, List.cons_append, parseNumber.eq_def]
      simp only [if_neg hcN, if_neg hcI, if_neg hcM]
      rw [← List.cons_append, ← hct,
        parseUnsigned_ppFrac m.toNat e rest (numTailOk_noDigit rest hr)]
      simp [htn]
  | nan =>
    rw [show ppNum .nan = ['N', 'a', 'N'] from rfl, parseNumber.eq_def]
    simp
  | inf b =>
    cases b
    · rw [show ppNum (.inf false) = ['I', 'n', 'f', 'i', 'n', 'i', 't', 'y'] from rfl,
        parseNumber.eq_def]
      simp
    · rw [show ppNum (.inf true) = '-' :: ['I', 'n', 'f', 'i', 'n', 'i', 't', 'y'] from rfl,
        parseNumber.eq_def]
      simp

theorem ppNum_head (n : JNum) : ∃ c t, ppNum n = c :: t ∧
    (c = '-' ∨ c = 'N' ∨ c = 'I' ∨ c.isDigit = true) := by
  cases n with
  | int m =>
    by_cases hneg : m < 0
    · exact ⟨'-', _, by
        rw [show ppNum (.int m) = ppInt m from rfl]
        exact if_pos hneg, Or.inl rfl⟩
    · obtain ⟨c, t, hct, hd⟩ := ppNat_head m.toNat
      exact ⟨c, t, by
        rw [show ppNum (.int m) = ppInt m from rfl,
          show ppInt m = ppNat m.toNat from if_neg hneg, hct], by tauto⟩
  | dec m e =>
    by_cases hneg : m < 0
    · exact ⟨'-', _, if_pos hneg, Or.inl rfl⟩
    · obtain ⟨c, t, hct, hd⟩ := ppFrac_head m.toNat e
      exact ⟨c, t, by rw [show ppNum (.dec m e) = ppFrac m.toNat e from if_neg hneg, hct],
        by tauto⟩
  | nan => exact ⟨'N', _, rfl, by tauto⟩
  | inf b =>
    cases b
    · exact ⟨'I', _, rfl, by tauto⟩
    · exact ⟨'-', _, rfl, Or.inl rfl⟩

theorem ppVal_head (v : JVal) : ∃ c t, ppVal v = c :: t ∧
    (c = 'n' ∨ c = 't' ∨ c = 'f' ∨ c = '"' ∨ c = '[' ∨ c = '\x7b' ∨ c = '-' ∨ c = 'N' ∨
      c = 'I' ∨ c.isDigit = true) := by
  cases v with
  | null => exact ⟨'n', _, rfl, by decide⟩
  | bool b =>
    cases b with
    | true => exact ⟨'t', _, rfl, by decide⟩
    | false => exact ⟨'f', _, rfl, by decide⟩
  | num n =>
    obtain ⟨c, t, hct, hd⟩ := ppNum_head n
    exact ⟨c, t, by rw [show ppVal (.num n) = ppNum n from rfl, hct], by tauto⟩
  | str s => exact ⟨'"', _, rfl, by decide⟩
  | arr l => exact ⟨'[', _, rfl, by decide⟩
  | obj fs => exact ⟨'\x7b', _, rfl, by decide⟩

theorem head_dispatch_letters (c : Char)
    (h : c = '-' ∨ c = 'N' ∨ c = 'I' ∨ c.isDigit = true) :
    c ≠ 'n' ∧ c ≠ 't' ∧ c ≠ 'f' ∧ c ≠ '"' ∧ c ≠ '[' ∧ c ≠ '\x7b' := by
  rcases h with rfl | rfl | rfl | h
  · exact ⟨by decide, by decide, by decide, by decide, by decide, by decide⟩
  · exact ⟨by decide, by decide, by decide, by decide, by decide, by decide⟩
  · exact ⟨by decide, by decide, by decide, by decide, by decide, by decide⟩
  · refine ⟨?_, ?_, ?_, ?_, ?_, ?_⟩ <;>
      exact fun heq => absurd h (by subst heq; decide)

theorem head_ne_close (c : Char)
    (h : c = 'n' ∨ c = 't' ∨ c = 'f' ∨ c = '"' ∨ c = '[' ∨ c = '\x7b' ∨ c = '-' ∨ c = 'N' ∨
      c = 'I' ∨ c.isDigit = true) : c ≠ ']' ∧ c ≠ '\x7d' := by
  rcases h with rfl | rfl | rfl | rfl | rfl | rfl | rfl | rfl | rfl | h
  all_goals first
    | exact ⟨by decide, by decide⟩
    | exact ⟨fun heq => absurd h (by subst heq; decide),
        fun heq => absurd h (by subst heq; decide)⟩

theorem sizeJ_pos (v : JVal) : 1 ≤ sizeJ v := by
  cases v <;> simp [sizeJ]

theorem sizeL_pos (l : List JVal) : 1 ≤ sizeL l := by
  cases l with
  | nil => simp [sizeL]
  | cons v vs => simp [sizeL]; have := sizeJ_pos v; omega

theorem sizeF_pos (fs : List (String × JVal)) : 1 ≤ sizeF fs := by
  cases fs with
  | nil => simp [sizeF]
  | cons f fs => simp [sizeF]; have := sizeJ_pos f.2; omega

theorem parse_pp (fuel : ℕ) :
    (∀ v rest, sizeJ v ≤ fuel → numTailOk rest = true →
        parseVal fuel (ppVal v ++ rest) = some (v, rest)) ∧
    (∀ l rest, sizeL l ≤ fuel → numTailOk rest = true →
        parseItems fuel (ppItems l ++ rest) = some (l, rest)) ∧
    (∀ fs rest, sizeF fs ≤ fuel → numTailOk rest = true →
        parseFields fuel (ppFields fs ++ rest) = some (fs, rest)) := by
  induction fuel with
  | zero =>
    refine ⟨fun v rest h _ => absurd h ?_, fun l rest h _ => absurd h ?_,
      fun fs rest h _ => absurd h ?_⟩
    · have := sizeJ_pos v; omega
    · have := sizeL_pos l; omega
    · have := sizeF_pos fs; omega
  | succ f ih =>
    obtain ⟨ihV, ihI, ihF⟩ := ih
    refine ⟨?_, ?_, ?_⟩
    · intro v rest hsz hnd
      cases v with
      | null =>
        rw [show ppVal .null ++ rest = 'n' :: 'u' :: 'l' :: 'l' :: rest from rfl,
          parseVal.eq_def]
        simp
      | bool b =>
        cases b
        · rw [show ppVal (.bool false) ++ rest = 'f' :: 'a' :: 'l' :: 's' :: 'e' :: rest from
            rfl, parseVal.eq_def]
          simp
        · rw [show ppVal (.bool true) ++ rest = 't' :: 'r' :: 'u' :: 'e' :: rest from rfl,
            parseVal.eq_def]
          simp
      | num n =>
        obtain ⟨c, t, hct, hdisj⟩ := ppNum_head n
        obtain ⟨h1, h2, h3, h4, h5, h6⟩ := head_dispatch_letters c hdisj
        rw [show ppVal (.num n) = ppNum n from rfl, hct, List.cons_append, parseVal.eq_def]
        simp only [if_neg h1, if_neg h2, if_neg h3, if_neg h4, if_neg h5, if_neg h6,
          if_pos hdisj]
        rw [← List.cons_append, ← hct]
        exact parseNumber_ppNum n rest hnd
      | str s =>
        rw [show ppVal (.str s) ++ rest = '"' :: (ppStrBody s.data ++ rest) from by
            rw [show ppVal (.str s) = '"' :: ppStrBody s.data from rfl]
            rfl,
          parseVal.eq_def]
        simp [parseStrChars_ppStrBody, string_mk_data]
      | arr l =>
        have hl : sizeL l ≤ f := by
          have h1 : sizeL l + 1 ≤ f + 1 := by simpa [sizeJ] using hsz
          omega
        rw [show ppVal (.arr l) ++ rest = '[' :: (ppItems l ++ rest) from by
            rw [show ppVal (.arr l) = '[' :: ppItems l from rfl]
            rfl,
          parseVal.eq_def]
        simp [ihI l rest hl hnd]
      | obj fs =>
        have hl : sizeF fs ≤ f := by
          have h1 : sizeF fs + 1 ≤ f + 1 := by simpa [sizeJ] using hsz
          omega
        rw [show ppVal (.obj fs) ++ rest = '\x7b' :: (ppFields fs ++ rest) from by
            rw [show ppVal (.obj fs) = '\x7b' :: ppFields fs from rfl]
            rfl,
          parseVal.eq_def]
        simp [ihF fs rest hl hnd]
    · intro l rest hsz hnd
      match l with
      | [] =>
        rw [show ppItems [] ++ rest = ']' :: rest from rfl, parseItems.eq_def]
        simp
      | [v] =>
        have hv : sizeJ v ≤ f := by
          have h1 : sizeJ v + 1 ≤ f + 1 := by simpa [sizeL] using hsz
          omega
        obtain ⟨c, t, hct, hdisj⟩ := ppVal_head v
        obtain ⟨hne1, hne2⟩ := head_ne_close c hdisj
        have happ : ppItems [v] ++ rest = c :: (t ++ (']' :: rest)) := by
          rw [show ppItems [v] = ppVal v ++ [']'] from rfl, hct]
          simp
        rw [happ, parseItems.eq_def]
        simp only [if_neg hne1]
        rw [show c :: (t ++ (']' :: rest)) = ppVal v ++ (']' :: rest) from by
            rw [hct]
            rfl,
          ihV v (']' :: rest) hv rfl]
        simp
      | v :: v2 :: vs =>
        have hsum : sizeJ v + sizeL (v2 :: vs) ≤ f + 1 := by simpa [sizeL] using hsz
        have hv : sizeJ v ≤ f := by have := sizeL_pos (v2 :: vs); omega
        have hrest : sizeL (v2 :: vs) ≤ f := by have := sizeJ_pos v; omega
        obtain ⟨c, t, hct, hdisj⟩ := ppVal_head v
        obtain ⟨hne1, hne2⟩ := head_ne_close c hdisj
        have happ : ppItems (v :: v2 :: vs) ++ rest =
            c :: (t ++ (',' :: (ppItems (v2 :: vs) ++ rest))) := by
          rw [show ppItems (v :: v2 :: vs) = ppVal v ++ ',' :: ppItems (v2 :: vs) from rfl,
            hct]
          simp
        rw [happ, parseItems.eq_def]
        simp only [if_neg hne1]
        rw [show c :: (t ++ (',' :: (ppItems (v2 :: vs) ++ rest))) =
            ppVal v ++ (',' :: (ppItems (v2 :: vs) ++ rest)) from by
            rw [hct]
            rfl,
          ihV v (',' :: (ppItems (v2 :: vs) ++ rest)) hv rfl]
        simp [ihI (v2 :: vs) rest hrest hnd]
    · intro fs rest hsz hnd
      match fs with
      | [] =>
        rw [show ppFields [] ++ rest = '\x7d' :: rest from rfl, parseFields.eq_def]
        simp
      | [(k, x)] =>
        have hv : sizeJ x ≤ f := by
          have h1 : sizeJ x + 1 ≤ f + 1 := by simpa [sizeF] using hsz
          omega
        have happ : ppFields [(k, x)] ++ rest =
            '"' :: (ppStrBody k.data ++ (':' :: (ppVal x ++ ('\x7d' :: rest)))) := by
          rw [show ppFields [(k, x)] =
            '"' :: (ppStrBody k.data ++ ':' :: (ppVal x ++ ['\x7d'])) from rfl]
          simp
        rw [happ, parseFields.eq_def]
        simp [parseStrChars_ppStrBody, ihV x ('\x7d' :: rest) hv rfl, string_mk_data]
      | (k, x) :: f2 :: fs2 =>
        have hsum : sizeJ x + sizeF (f2 :: fs2) ≤ f + 1 := by simpa [sizeF] using hsz
        have hv : sizeJ x ≤ f := by have := sizeF_pos (f2 :: fs2); omega
        have hrest : sizeF (f2 :: fs2) ≤ f := by have := sizeJ_pos x; omega
        have happ : ppFields ((k, x) :: f2 :: fs2) ++ rest =
            '"' :: (ppStrBody k.data ++
              (':' :: (ppVal x ++ (',' :: (ppFields (f2 :: fs2) ++ rest))))) := by
          rw [show ppFields ((k, x) :: f2 :: fs2) =
            '"' :: (ppStrBody k.data ++ ':' :: (ppVal x ++ ',' :: ppFields (f2 :: fs2)))
            from rfl]
          simp
        rw [happ, parseFields.eq_def]
        simp [parseStrChars_ppStrBody,
          ihV x (',' :: (ppFields (f2 :: fs2) ++ rest)) hv rfl,
          ihF (f2 :: fs2) rest hrest hnd, string_mk_data]

theorem ppNum_ne_nil (n : JNum) : ppNum n ≠ [] := by
  obtain ⟨c, t, hct, _⟩ := ppNum_head n
  simp [hct]

theorem size_le_len (fuel : ℕ) :
    (∀ v, sizeJ v ≤ fuel → sizeJ v ≤ (ppVal v).length) ∧
    (∀ l, sizeL l ≤ fuel → sizeL l ≤ (ppItems l).length) ∧
    (∀ fs, sizeF fs ≤ fuel → sizeF fs ≤ (ppFields fs).length) := by
  induction fuel with
  | zero =>
    refine ⟨fun v h => absurd h ?_, fun l h => absurd h ?_, fun fs h => absurd h ?_⟩
    · have := sizeJ_pos v; omega
    · have := sizeL_pos l; omega
    · have := sizeF_pos fs; omega
  | succ f ih =>
    obtain ⟨ihV, ihI, ihF⟩ := ih
    refine ⟨?_, ?_, ?_⟩
    · intro v hsz
      cases v with
      | null => simp [sizeJ, ppVal]
      | bool b => cases b <;> simp [sizeJ, ppVal]
      | num n =>
        obtain ⟨c, t, hct, _⟩ := ppNum_head n
        rw [show ppVal (.num n) = ppNum n from rfl, hct]
        simp [sizeJ]
      | str s =>
        rw [show ppVal (.str s) = '"' :: ppStrBody s.data from rfl]
        simp [sizeJ]
      | arr l =>
        have hl : sizeL l ≤ f := by
          have h1 : sizeL l + 1 ≤ f + 1 := by simpa [sizeJ] using hsz
          omega
        have := ihI l hl
        rw [show ppVal (.arr l) = '[' :: ppItems l from rfl]
        simp only [sizeJ, List.length_cons]
        omega
      | obj fs =>
        have hl : sizeF fs ≤ f := by
          have h1 : sizeF fs + 1 ≤ f + 1 := by simpa [sizeJ] using hsz
          omega
        have := ihF fs hl
        rw [show ppVal (.obj fs) = '\x7b' :: ppFields fs from rfl]
        simp only [sizeJ, List.length_cons]
        omega
    · intro l hsz
      match l with
      | [] => simp [sizeL, ppItems]
      | [v] =>
        have hv : sizeJ v ≤ f := by
          have h1 : sizeJ v + 1 ≤ f + 1 := by simpa [sizeL] using hsz
          omega
        have := ihV v hv
        rw [show ppItems [v] = ppVal v ++ [']'] from rfl]
        simp only [sizeL, List.length_append, List.length_cons, List.length_nil]
        omega
      | v :: v2 :: vs =>
        have hsum : sizeJ v + sizeL (v2 :: vs) ≤ f + 1 := by simpa [sizeL] using hsz
        have hv : sizeJ v ≤ f := by have := sizeL_pos (v2 :: vs); omega
        have hrest : sizeL (v2 :: vs) ≤ f := by have := sizeJ_pos v; omega
        have h1 := ihV v hv
        have h2 := ihI (v2 :: vs) hrest
        have hexp : sizeL (v2 :: vs) = sizeJ v2 + sizeL vs := rfl
        rw [show ppItems (v :: v2 :: vs) = ppVal v ++ ',' :: ppItems (v2 :: vs) from rfl]
        simp only [sizeL, List.length_append, List.length_cons]
        omega
    · intro fs hsz
      match fs with
      | [] => simp [sizeF, ppFields]
      | [(k, x)] =>
        have hv : sizeJ x ≤ f := by
          have h1 : sizeJ x + 1 ≤ f + 1 := by simpa [sizeF] using hsz
          omega
        have := ihV x hv
        rw [show ppFields [(k, x)] =
          '"' :: (ppStrBody k.data ++ ':' :: (ppVal x ++ ['\x7d'])) from rfl]
        simp only [sizeF, List.length_cons, List.length_append, List.length_nil]
        omega
      | (k, x) :: f2 :: fs2 =>
        have hsum : sizeJ x + sizeF (f2 :: fs2) ≤ f + 1 := by simpa [sizeF] using hsz
        have hv : sizeJ x ≤ f := by have := sizeF_pos (f2 :: fs2); omega
        have hrest : sizeF (f2 :: fs2) ≤ f := by have := sizeJ_pos x; omega
        have h1 := ihV x hv
        have h2 := ihF (f2 :: fs2) hrest
        have hexp : sizeF (f2 :: fs2) = sizeJ f2.2 + sizeF fs2 := rfl
        rw [show ppFields ((k, x) :: f2 :: fs2) =
          '"' :: (ppStrBody k.data ++ ':' :: (ppVal x ++ ',' :: ppFields (f2 :: fs2)))
          from rfl]
        simp only [sizeF, List.length_cons, List.length_append]
        omega

theorem ppVal_ne_nil (v : JVal) : ppVal v ≠ [] := by
  obtain ⟨c, t, hct, _⟩ := ppVal_head v
  simp [hct]

theorem loads_dumps (v : JVal) : loads (dumps v) = some v := by
  unfold loads dumps
  have hlen : sizeJ v ≤ (ppVal v).length + 1 := by
    have h := (size_le_len (sizeJ v)).1 v le_rfl
    omega
  have h := (parse_pp ((ppVal v).length + 1)).1 v [] hlen rfl
  rw [List.append_nil] at h
  rw [show (String.mk (ppVal v)).data = ppVal v from rfl, h]

theorem dumps_ne_empty (v : JVal) : dumps v ≠ "" := by
  unfold dumps
  intro h
  exact ppVal_ne_nil v (congrArg String.data h)

theorem pyEqNum_refl (a : JNum) (h : numIsNan a = false) : pyEqNum a a = true := by
  cases a with
  | int n => simp [pyEqNum]
  | dec m e => simp [pyEqNum]
  | nan => simp [numIsNan] at h
  | inf b => simp [pyEqNum]

theorem pyEq_refl_aux (fuel : ℕ) :
    (∀ v, sizeJ v ≤ fuel → nanFree v = true → pyEq v v = true) ∧
    (∀ l, sizeL l ≤ fuel → nanFreeL l = true → pyEqL l l = true) ∧
    (∀ fs, sizeF fs ≤ fuel → nanFreeF fs = true → pyEqF fs fs = true) := by
  induction fuel with
  | zero =>
    refine ⟨fun v h _ => absurd h ?_, fun l h _ => absurd h ?_, fun fs h _ => absurd h ?_⟩
    · have := sizeJ_pos v; omega
    · have := sizeL_pos l; omega
    · have := sizeF_pos fs; omega
  | succ f ih =>
    obtain ⟨ihV, ihI, ihF⟩ := ih
    refine ⟨?_, ?_, ?_⟩
    · intro v hsz hnf
      cases v with
      | null => rfl
      | bool b => simp [pyEq]
      | num a =>
        rw [show pyEq (.num a) (.num a) = pyEqNum a a from rfl]
        refine pyEqNum_refl a ?_
        simpa [nanFree, Bool.not_eq_true'] using hnf
      | str s => simp [pyEq]
      | arr l =>
        have hl : sizeL l ≤ f := by
          have h1 : sizeL l + 1 ≤ f + 1 := by simpa [sizeJ] using hsz
          omega
        rw [show pyEq (.arr l) (.arr l) = pyEqL l l from rfl]
        exact ihI l hl (by simpa [nanFree] using hnf)
      | obj fs =>
        have hl : sizeF fs ≤ f := by
          have h1 : sizeF fs + 1 ≤ f + 1 := by simpa [sizeJ] using hsz
          omega
        rw [show pyEq (.obj fs) (.obj fs) = pyEqF fs fs from rfl]
        exact ihF fs hl (by simpa [nanFree] using hnf)
    · intro l hsz hnf
      cases l with
      | nil => rfl
      | cons v vs =>
        have hsum : sizeJ v + sizeL vs ≤ f + 1 := by simpa [sizeL] using hsz
        have hv : sizeJ v ≤ f := by have := sizeL_pos vs; omega
        have hrest : sizeL vs ≤ f := by have := sizeJ_pos v; omega
        have hparts : nanFree v = true ∧ nanFreeL vs = true := by
          simpa [nanFreeL] using hnf
        rw [show pyEqL (v :: vs) (v :: vs) = (pyEq v v && pyEqL vs vs) from rfl]
        simp [ihV v hv hparts.1, ihI vs hrest hparts.2]
    · intro fs hsz hnf
      cases fs with
      | nil => rfl
      | cons f1 fs1 =>
        have hsum : sizeJ f1.2 + sizeF fs1 ≤ f + 1 := by simpa [sizeF] using hsz
        have hv : sizeJ f1.2 ≤ f := by have := sizeF_pos fs1; omega
        have hrest : sizeF fs1 ≤ f := by have := sizeJ_pos f1.2; omega
        have hparts : nanFree f1.2 = true ∧ nanFreeF fs1 = true := by
          simpa [nanFreeF] using hnf
        rw [show pyEqF (f1 :: fs1) (f1 :: fs1) =
            ((f1.1 == f1.1) && pyEq f1.2 f1.2 && pyEqF fs1 fs1) from rfl]
        simp [ihV f1.2 hv hparts.1, ihF fs1 hrest hparts.2]

theorem pyEq_refl_of_nanFree (v : JVal) (h : nanFree v = true) : pyEq v v = true :=
  (pyEq_refl_aux (sizeJ v)).1 v le_rfl h

/-- C8 counterexample: round-trip value equality fails on the claimed
value class.  The nan float is JSON-serializable for json.dumps
(allow_nan defaults to True) and survives set followed by get as a
value, but under Python == the decoded nan is not equal to the stored
one (nan is unequal to itself), so the returned value is not equal to
the value stored. -/
theorem C8_counterexample :
    CacheClient.get (CacheClient.set [] "matches:j1" (JVal.num JNum.nan)) "matches:j1" =
      .ok (some (JVal.num JNum.nan)) ∧
    pyEq (JVal.num JNum.nan) (JVal.num JNum.nan) = false := by
  constructor
  · unfold CacheClient.get CacheClient.set CacheClient.storeGet
    simp [List.find?, dumps_ne_empty (JVal.num JNum.nan), loads_dumps (JVal.num JNum.nan)]
  · rfl

/-- C8 amended: for every JSON-serializable value containing no nan
(finite compositions of null, booleans, int/float numbers, strings,
lists and string-keyed maps), set followed by get on the same key
returns exactly the stored value, and that value is equal to the
stored one under Python ==; with a nan inside, the equality fails per
the counterexample.  The printer/parser pair modelling the json
encoding round-trips the whole value class, the stored string is never
falsy, and the dict lookup finds the newest binding. -/
theorem C8_set_get_roundtrip_amended (cache : CacheClient.Store) (key : String) (v : JVal)
    (h : nanFree v = true) :
    CacheClient.get (CacheClient.set cache key v) key = .ok (some v) ∧ pyEq v v = true := by
  refine ⟨?_, pyEq_refl_of_nanFree v h⟩
  unfold CacheClient.get CacheClient.set CacheClient.storeGet
  simp [List.find?, dumps_ne_empty v, loads_dumps v]

/-- Witness for the amended C8: a ranked-results payload with a float
score stores and reads back as an equal value. -/
theorem C8_set_get_roundtrip_amended_witness :
    nanFree payloadC8 = true ∧
    (CacheClient.get (CacheClient.set [] "matches:j1" payloadC8) "matches:j1" =
        .ok (some payloadC8) ∧
      pyEq payloadC8 payloadC8 = true) :=
  ⟨rfl, C8_set_get_roundtrip_amended [] "matches:j1" payloadC8 rfl⟩
